import Mathlib

/-!
Verification of the `binmerge` overlap-detection and merge engine
(`src/binmerge.cpp`).

The C++ program works on binary streams; we model a stream as a `List Nat`
of its bytes.  A well-behaved file stream satisfies the `istream` contract:
a `read n` returns the next `min n remaining` bytes and reports eof exactly
when it returns fewer bytes than requested.  The pure definitions below
model the program's functions over such streams; a second family of
"oracle" definitions (`searchInFileOracle`, `compareFilesOracle`) models
the same code over an arbitrary sequence of read results, which is needed
to speak about streams that violate the contract (short reads without
eof).

`double` arithmetic on match quotas is modelled by `ℚ`.  The program only
ever compares quotas (`q1 > q2`, `q > 0.7`); the executable comparisons
are done by integer cross-multiplication (`quotaLtB`, `threshGtB`) and
proved equivalent to the `ℚ` comparisons.  `size_t` values are modelled by
`Nat`; the one place where `size_t` wrap-around is reachable
(`bytesReadPreviously + pattern.size() - 1` with an empty pattern and an
empty buffer) carries an explicit `% 2 ^ 64`.
-/

namespace Binmerge

/-- `struct MatchResult` of `binmerge.cpp` (lines 12-35). -/
structure MatchResult where
  patternFound : Bool := false
  matchPosition : Nat := 0
  patternSize : Nat := 0
  bytesDiffering : Nat := 0
deriving Repr, DecidableEq, Inhabited

/-- `MatchResult::overlapCount`: `matchPosition + patternSize`. -/
def MatchResult.overlapCount (r : MatchResult) : Nat :=
  r.matchPosition + r.patternSize

/-- `MatchResult::quota`, the `double` return value modelled in `ℚ`.
For every result the program builds, `bytesDiffering ≤ overlapCount`
(proved below), so the `size_t` subtraction in the source is exact. -/
def MatchResult.quota (r : MatchResult) : ℚ :=
  if ¬r.patternFound ∨ r.overlapCount = 0 then 0
  else ((r.overlapCount : ℚ) - (r.bytesDiffering : ℚ)) / (r.overlapCount : ℚ)

/-- Numerator of `quota` as a natural number (0 for a not-found result). -/
def MatchResult.qnum (r : MatchResult) : Nat :=
  if r.patternFound then r.overlapCount - r.bytesDiffering else 0

/-- Executable model of the comparison `a.quota() < b.quota()`
(by cross-multiplication; denominator 0 means the quota is 0). -/
def quotaLtB (a b : MatchResult) : Bool :=
  if b.overlapCount = 0 then false
  else if a.overlapCount = 0 then decide (0 < b.qnum)
  else decide (a.qnum * b.overlapCount < b.qnum * a.overlapCount)

/-- Executable model of the comparison `r.quota() > 0.7`. -/
def threshGtB (r : MatchResult) : Bool :=
  decide (7 * r.overlapCount < 10 * r.qnum)

/-- `(w.drop i).take |P| = P`: the pattern `P` occurs in `w` at offset `i`
(the `take`/`=` forces all `|P|` bytes to be present and equal). -/
def matchAt (w P : List Nat) (i : Nat) : Bool :=
  decide ((w.drop i).take P.length = P)

/-- `std::search(start, start + stop, P.begin(), P.end())`, as the offset of
the returned iterator from `start`: the smallest `i` with
`i + |P| ≤ stop` at which `P` occurs, and `stop` itself if there is none
(for an empty `P` this returns `0`, like `std::search`). -/
def stdSearchRes (w P : List Nat) (stop : Nat) : Nat :=
  match (List.range' 0 (stop + 1)).find?
      (fun i => decide (i + P.length ≤ stop) && matchAt w P i) with
  | some i => i
  | none => stop

/-- The `while` loop of `searchInFile` (lines 57-85) over a well-behaved
stream.  State: `rest` = bytes not yet read, `good` = the stream has not
yet hit eof (`while (file || ...)`), `prev` = the `bytesReadPreviously`
bytes at the front of the rolling buffer, `rbs` = `realBufferSize`,
`position` = absolute offset of `buffer[0]`.  `fuel` only bounds the
recursion: `none` means the fuel ran out (the C++ loop is still running),
`some none` is "pattern not found", `some (some i)` a match at offset `i`.
The short-read sanity check of the source cannot fire on a well-behaved
stream (fewer bytes than requested implies eof here); see
`searchOracleGo` for the model in which it can. -/
def searchGo (bs : Nat) (P : List Nat) :
    Nat → List Nat → Bool → List Nat → Nat → Nat → Option (Option Nat)
  | 0, _, _, _, _, _ => none
  | fuel+1, rest, good, prev, rbs, position =>
    if good = true ∨ P.length ≤ rbs then
      let newBlock := if good = true then rest.take bs else []
      let rest' := if good = true then rest.drop bs else rest
      let good' := good && decide (bs ≤ rest.length)
      let window := prev ++ newBlock
      let stopIdx := min ((prev.length + P.length + (2 ^ 64 - 1)) % 2 ^ 64) window.length
      let res := stdSearchRes window P stopIdx
      if res = stopIdx then
        searchGo bs P fuel rest' good' newBlock window.length (position + prev.length)
      else some (some (position + res))
    else some none

/-- Fuel that suffices for `searchGo` whenever the pattern is non-empty
(theorem `searchInFile_terminates`). -/
def suffFuel (S P : List Nat) : Nat :=
  2 * S.length + P.length + 2

/-- `searchInFile(file, pattern, pos)` (lines 37-88) over a well-behaved
stream `S`, with the block size as a parameter (the source fixes
`blockSize = 4096`): seek to `pos`, read the first block, then run the
rolling-window loop.  `none` means the C++ loop does not terminate within
`suffFuel` steps. -/
def searchInFile (bs : Nat) (S P : List Nat) (pos : Nat) : Option MatchResult :=
  let s := S.drop pos
  match searchGo bs P (suffFuel S P) (s.drop bs) (decide (bs ≤ s.length))
      (s.take bs) (s.take bs).length pos with
  | none => none
  | some none => some {}
  | some (some i) => some { patternFound := true, matchPosition := i, patternSize := P.length }

/-- Modelled from the spec: "a straightforward in-memory substring search
repeated from `startOffset`" — the earliest `i ≥ pos` at which `P` occurs
contiguously in `S`.  This is the reference the rolling-window search is
compared against. -/
def naiveSearch (S P : List Nat) (pos : Nat) : Option Nat :=
  (List.range' 0 (S.length + 1)).find? (fun i => decide (pos ≤ i) && matchAt S P i)

/-- The `MatchResult` that corresponds to an answer of the naive search:
found at `i` with the pattern's size, or the all-default "not found". -/
def resultOfNaive (P : List Nat) : Option Nat → MatchResult
  | some i => { patternFound := true, matchPosition := i, patternSize := P.length }
  | none => {}

/-- Invariant of every `MatchResult` the scan phase produces: a found
result has at most `overlapCount` differing bytes, a not-found result is
all-zero. -/
def GoodResult (r : MatchResult) : Prop :=
  (r.patternFound = true → r.bytesDiffering ≤ r.overlapCount) ∧
  (r.patternFound = false → r = {})

/-- Number of positions at which two byte lists differ, over the length of
the shorter one. -/
def countDiffering (xs ys : List Nat) : Nat :=
  (xs.zip ys).countP (fun p => decide (p.1 ≠ p.2))

/-- The `do`-`while` loop of `compareFiles` (lines 101-124) over two
well-behaved streams: read a block from each, count differing bytes over
`min(bytesRead1, bytesRead2)`, continue while both reads were full. -/
def compareGo (bs : Nat) : Nat → List Nat → List Nat → Nat → Nat
  | 0, _, _, acc => acc
  | fuel+1, l1, l2, acc =>
    let acc' := acc + countDiffering (l1.take bs) (l2.take bs)
    if bs ≤ l1.length ∧ bs ≤ l2.length then
      compareGo bs fuel (l1.drop bs) (l2.drop bs) acc'
    else acc'

/-- `compareFiles(file1, file2)` (lines 92-127) over well-behaved streams:
`l1`, `l2` are the bytes remaining in each stream.  For `bs ≥ 1`, each
iteration consumes `bs` bytes of `l1`, so `l1.length + 1` fuel always
suffices (`compareFiles_eq_countDiffering`). -/
def compareFiles (bs : Nat) (l1 l2 : List Nat) : Nat :=
  compareGo bs (l1.length + 1) l1 l2 0

inductive MergeError where
  | shortRead
  | openFail
deriving Repr, DecidableEq

/-- The comparison step of `main`'s refinement loop (lines 277-282):
`file1.seekg(-overlapCount, end); file2.seekg(0); compareFiles(...)`.
When `overlapCount > |A|` the seek fails (negative position, `failbit`),
the subsequent `read` extracts nothing without eof, and the sanity check
in `compareFiles` throws `std::system_error`: modelled as `.error`. -/
def compareAt (A B : List Nat) (overlap : Nat) : Except MergeError Nat :=
  if overlap ≤ A.length then
    .ok (compareFiles 4096 (A.drop (A.length - overlap)) B)
  else .error .shortRead

/-- Pattern extraction of `main` (lines 239-245) for the FIRST pair,
whose predecessor stream was just opened and is positioned at 0:
`clear()`, `seekg(-20, end)`, then read to end.  When the file is
shorter than 20 bytes the seek fails leaving the position unchanged (0),
and `istreambuf_iterator` reads from the stream buffer regardless of
`failbit`, so the whole file becomes the pattern.  Extraction for the
later pairs, whose predecessor stream sits at end-of-stream, is
`extractPatternEOF` below. -/
def extractPattern (A : List Nat) : List Nat :=
  if 20 ≤ A.length then A.drop (A.length - 20) else A

/-- Pattern extraction of `main` (lines 239-245) for every pair after the
first.  Its predecessor stream is carried over by `file1.swap(file2)`
after serving as the previous pair's successor, which left it read to
exhaustion (the search loop reads until end-of-stream or a found match,
and `compareFiles` after `file2.seekg(0)` reads at least the whole of a
sub-block-size file): a file shorter than 20 bytes sits at end-of-stream.
`clear()` resets the flags, and for a file of at least 20 bytes
`seekg(-20, end)` repositions it exactly as for the first pair; for a
shorter file the seek fails leaving the position at end-of-stream, and
`istreambuf_iterator` extracts nothing — the pattern is empty. -/
def extractPatternEOF (A : List Nat) : List Nat :=
  if 20 ≤ A.length then A.drop (A.length - 20) else []

/-- The `while (lastResult.patternFound)` refinement loop of `main`
(lines 271-295).  `result` is the best match so far, `last` the current
candidate.  `none` = fuel ran out (the C++ loop or an inner
`searchInFile` call is still running); `.error` = an exception escaped
(crash).  The quota comparisons are the executable `quotaLtB` /
`threshGtB` models of `lastResult.quota() > result.quota()` and
`result.quota() > 0.7`.  The retry offset `lastResult.matchPosition + 1`
is read from `last` directly: updating `bytesDiffering` leaves
`matchPosition` unchanged. -/
def refineGo (A B P : List Nat) (best : Bool) :
    Nat → MatchResult → MatchResult → Option (Except MergeError MatchResult)
  | 0, _, _ => none
  | fuel+1, result, last =>
    if last.patternFound then
      match compareAt A B last.overlapCount with
      | .error e => some (.error e)
      | .ok diff =>
        let last' : MatchResult := { last with bytesDiffering := diff }
        let result' := if quotaLtB result last' then last' else result
        if threshGtB result' || !best then some (.ok result')
        else
          match searchInFile 4096 B P (last.matchPosition + 1) with
          | none => none
          | some next => refineGo A B P best fuel result' next
    else some (.ok result)

/-- Ghost trace of `refineGo`: the candidates the loop scores
(each with its computed `bytesDiffering`), in the order examined.
Identical recursion structure to `refineGo`. -/
def refineCands (A B P : List Nat) (best : Bool) :
    Nat → MatchResult → MatchResult → List MatchResult
  | 0, _, _ => []
  | fuel+1, result, last =>
    if last.patternFound then
      match compareAt A B last.overlapCount with
      | .error _ => []
      | .ok diff =>
        let last' : MatchResult := { last with bytesDiffering := diff }
        let result' := if quotaLtB result last' then last' else result
        if threshGtB result' || !best then [last']
        else
          match searchInFile 4096 B P (last.matchPosition + 1) with
          | none => [last']
          | some next => last' :: refineCands A B P best fuel result' next
    else []

/-- Best quota reached after folding a list of candidates over a start
value (the running `result.quota()`). -/
def runBest (q : ℚ) (cs : List MatchResult) : ℚ :=
  cs.foldl (fun a c => max a c.quota) q

/-- One iteration of the pair loop of `main` (lines 236-316) for a
predecessor `A` (freshly opened) and successor `B`: extract the pattern
from `A`, search it in `B`, refine.  Returns the `MatchResult` pushed
onto `searchResults`, `.error` if an exception escapes, `none` if a loop
never terminates. -/
def processPair (A B : List Nat) (best : Bool) : Option (Except MergeError MatchResult) :=
  let P := extractPattern A
  match searchInFile 4096 B P 0 with
  | none => none
  | some first => refineGo A B P best (B.length + 2) default first

/-- One iteration of the pair loop of `main` (lines 236-316) for every
pair after the first: identical to `processPair` except that the pattern
is extracted from a predecessor stream sitting at end-of-stream. -/
def processPairLater (A B : List Nat) (best : Bool) : Option (Except MergeError MatchResult) :=
  let P := extractPatternEOF A
  match searchInFile 4096 B P 0 with
  | none => none
  | some first => refineGo A B P best (B.length + 2) default first

/-- The `for` loop of `mergeFiles` (lines 176-197): each file contributes
its bytes from the cut position to end-of-file; a file that fails to open
(`none`) aborts the loop (the C++ `return`), leaving the output partial.
`i` is the loop index; file `i > 0` is cut at `searchResults[i-1]`'s
overlap when that pair's pattern was found.  `outputFile <<
inputFile.rdbuf()` sets `failbit` on the output stream when it inserts no
characters, and every later insertion on the failed stream is a no-op: a
file whose contribution is empty (an empty file, or a cut at or past its
end — the in-file seek itself succeeds even past end-of-file) silently
drops the bytes of every later file as well. -/
def mergeGoOpt : List (Option (List Nat)) → List MatchResult → Nat → List Nat
  | [], _, _ => []
  | none :: _, _, _ => []
  | some d :: fs, rs, i =>
    let c := if 0 < i ∧ ((rs.getD (i-1) default).patternFound = true)
      then d.drop ((rs.getD (i-1) default).overlapCount) else d
    if c = [] then [] else c ++ mergeGoOpt fs rs (i+1)

/-- `mergeFiles` (lines 164-198): nothing is written when the output sink
fails to open; otherwise the per-file loop runs.  Returns the bytes
written to the output sink. -/
def mergeFilesRun (outputOk : Bool) (files : List (Option (List Nat)))
    (rs : List MatchResult) : List Nat :=
  if outputOk then mergeGoOpt files rs 0 else []

/-- `mergeFiles` when every input opens: the assembled output. -/
def mergeFilesOut (files : List (List Nat)) (rs : List MatchResult) : List Nat :=
  mergeGoOpt (files.map some) rs 0

/-- Modelled from the spec: the per-file cut offset — 0 for the first file
and for a pair with no match, else the preceding pair's `overlapCount`. -/
def cutOffset (rs : List MatchResult) (i : Nat) : Nat :=
  if i = 0 then 0
  else if (rs.getD (i-1) default).patternFound then (rs.getD (i-1) default).overlapCount
  else 0

/-- The scan phase of `main` from the second pair on: the predecessor
stream of every pair here is carried over by `file1.swap(file2)` and sits
at end-of-stream.  Open each successor (exit 1 on failure), process the
pair against its predecessor.  `none` = crash or hang inside a pair. -/
def scanGoLater (A : List Nat) : List (Option (List Nat)) → Bool →
    Option (Except MergeError (List MatchResult))
  | [], _ => some (.ok [])
  | none :: _, _ => some (.error .openFail)
  | some B :: fs, best =>
    match processPairLater A B best with
    | none => none
    | some (.error e) => some (.error e)
    | some (.ok r) =>
      match scanGoLater B fs best with
      | none => none
      | some (.error e) => some (.error e)
      | some (.ok rs) => some (.ok (r :: rs))

/-- The scan phase of `main` for the files after the first.  The first
pair's predecessor is the freshly opened first file (position 0); every
later pair's predecessor is carried across by `file1.swap(file2)` and
sits at end-of-stream, which changes what its pattern extraction yields.
`none` = crash or hang inside a pair. -/
def scanGo (A : List Nat) : List (Option (List Nat)) → Bool →
    Option (Except MergeError (List MatchResult))
  | [], _ => some (.ok [])
  | none :: _, _ => some (.error .openFail)
  | some B :: fs, best =>
    match processPair A B best with
    | none => none
    | some (.error e) => some (.error e)
    | some (.ok r) =>
      match scanGoLater B fs best with
      | none => none
      | some (.error e) => some (.error e)
      | some (.ok rs) => some (.ok (r :: rs))

/-- `main` (lines 202-334): returns `(exit status, bytes written to the
output sink)`; `none` models abnormal termination (uncaught exception) or
a hang.  Open failures during the scan exit with status 1; after the
merge — whether or not `mergeFiles` aborted on an open failure — `main`
falls through to `return 0`. -/
def runMain (files : List (Option (List Nat))) (best outputOk confirm : Bool) :
    Option (Nat × List Nat) :=
  match files with
  | [] => none
  | f₀ :: rest =>
    match f₀ with
    | none => some (1, [])
    | some A =>
      match scanGo A rest best with
      | none => none
      | some (.error .openFail) => some (1, [])
      | some (.error .shortRead) => none
      | some (.ok rs) =>
        if confirm then some (0, mergeFilesRun outputOk files rs)
        else some (0, [])

/-- Test fingerprint for the best-match refinement scenario: 20 bytes that
occur nowhere else in the streams below. -/
def Pex : List Nat :=
  [100, 101, 102, 103, 104, 105, 106, 107, 108, 109,
   110, 111, 112, 113, 114, 115, 116, 117, 118, 119]

/-- Predecessor stream for the refinement scenario: the fingerprint `Pex`
occurs at offsets 10 and 40; its trailing 20 bytes are `Pex`. -/
def Aex : List Nat := List.replicate 10 1 ++ Pex ++ List.replicate 10 2 ++ Pex

/-- Successor stream for the refinement scenario: `Aex` followed by one
fresh byte, so the first (coincidental) candidate at offset 10 scores
20/30 ≤ 0.7 and the candidate at offset 40 scores a perfect 60/60. -/
def Bex : List Nat := Aex ++ [7]

/-! ### Oracle stream models (for the short-read sanity checks)

A read result is a pair `(bytes, eof)`: the bytes the stream returned and
whether it reported end-of-stream.  A well-behaved stream returns short
only together with `eof = true`; the oracle model lets a stream violate
that, which is exactly what the sanity checks in `searchInFile` and
`compareFiles` guard against (`throw std::system_error()` → `.error`). -/

/-- Pop the next read result; an exhausted oracle behaves as a stream at
eof. -/
def readO : List (List Nat × Bool) → (List Nat × Bool) × List (List Nat × Bool)
  | [] => (([], true), [])
  | r :: rs => (r, rs)

/-- The `while` loop of `searchInFile` over an oracle stream.  A read on
an already-failed stream extracts nothing and still reports eof.  The
sanity check (lines 63-65): fewer bytes than requested without eof is a
fatal error. -/
def searchOracleGo (bs : Nat) (P : List Nat) :
    Nat → List (List Nat × Bool) → Bool → List Nat → Nat → Nat →
    Option (Except Unit (Option Nat))
  | 0, _, _, _, _, _ => none
  | fuel+1, reads, good, prev, rbs, position =>
    if good = true ∨ P.length ≤ rbs then
      let step := if good = true then readO reads else (([], true), reads)
      let bytes := step.1.1
      let eof := step.1.2
      if bytes.length < bs ∧ eof = false then some (.error ())
      else
        let good' := decide (bytes.length = bs)
        let window := prev ++ bytes
        let stopIdx := min ((prev.length + P.length + (2 ^ 64 - 1)) % 2 ^ 64) window.length
        let res := stdSearchRes window P stopIdx
        if res = stopIdx then
          searchOracleGo bs P fuel step.2 good' bytes window.length (position + prev.length)
        else some (.ok (some (position + res)))
    else some (.ok none)

/-- `searchInFile` over an oracle stream: the initial read and its sanity
check (lines 47-52), then the loop. -/
def searchInFileOracle (bs : Nat) (P : List Nat) (reads : List (List Nat × Bool))
    (pos fuel : Nat) : Option (Except Unit (Option Nat)) :=
  let step := readO reads
  let bytes := step.1.1
  let eof := step.1.2
  if bytes.length < bs ∧ eof = false then some (.error ())
  else searchOracleGo bs P fuel step.2 (decide (bytes.length = bs)) bytes bytes.length pos

/-- The `do`-`while` loop of `compareFiles` over two oracle streams, with
its sanity check (lines 110-113). -/
def compareOracleGo (bs : Nat) :
    Nat → List (List Nat × Bool) → List (List Nat × Bool) → Nat →
    Option (Except Unit Nat)
  | 0, _, _, _ => none
  | fuel+1, rs1, rs2, acc =>
    let s1 := readO rs1
    let s2 := readO rs2
    if (s1.1.1.length < bs ∧ s1.1.2 = false) ∨ (s2.1.1.length < bs ∧ s2.1.2 = false) then
      some (.error ())
    else
      let acc' := acc + countDiffering s1.1.1 s2.1.1
      if s1.1.1.length = bs ∧ s2.1.1.length = bs then compareOracleGo bs fuel s1.2 s2.2 acc'
      else some (.ok acc')

/-- `compareFiles` over oracle streams. -/
def compareFilesOracle (bs : Nat) (rs1 rs2 : List (List Nat × Bool)) (fuel : Nat) :
    Option (Except Unit Nat) :=
  compareOracleGo bs fuel rs1 rs2 0

end Binmerge

namespace Binmerge

/-! ### Helper lemmas: `find?` over an index range -/

theorem find?_range'_some {p : Nat → Bool} {s n i : Nat}
    (h : (List.range' s n).find? p = some i) :
    p i = true ∧ s ≤ i ∧ i < s + n ∧ ∀ j, s ≤ j → j < i → p j = false := by
  induction n generalizing s with
  | zero => simp [List.range'] at h
  | succ n ih =>
    rw [List.range'_succ, List.find?_cons] at h
    by_cases hps : p s = true
    · simp [hps] at h
      subst h
      exact ⟨hps, le_refl _, by omega, fun j h1 h2 => absurd h1 (by omega)⟩
    · simp [Bool.not_eq_true] at hps
      rw [hps] at h
      obtain ⟨hp, hle, hlt, hmin⟩ := ih h
      refine ⟨hp, by omega, by omega, fun j h1 h2 => ?_⟩
      rcases Nat.eq_or_lt_of_le h1 with heq | hlt'
      · exact heq ▸ hps
      · exact hmin j hlt' h2

theorem find?_range'_none {p : Nat → Bool} {s n : Nat}
    (h : (List.range' s n).find? p = none) :
    ∀ j, s ≤ j → j < s + n → p j = false := by
  intro j h1 h2
  rw [List.find?_eq_none] at h
  have : j ∈ List.range' s n := by
    rw [List.mem_range']
    exact ⟨j - s, by omega, by omega⟩
  simpa using h j this

theorem find?_range'_eq_some {p : Nat → Bool} {s n i : Nat}
    (hp : p i = true) (h1 : s ≤ i) (h2 : i < s + n)
    (hmin : ∀ j, s ≤ j → j < i → p j = false) :
    (List.range' s n).find? p = some i := by
  induction n generalizing s with
  | zero => omega
  | succ n ih =>
    rw [List.range'_succ, List.find?_cons]
    rcases Nat.eq_or_lt_of_le h1 with heq | hlt
    · subst heq
      rw [hp]
    · rw [hmin s (le_refl s) hlt]
      exact ih (by omega) (by omega) (fun j hj1 hj2 => hmin j (by omega) hj2)

/-! ### Helper lemmas: `matchAt` -/

theorem matchAt_iff {w P : List Nat} {i : Nat} :
    matchAt w P i = true ↔ (w.drop i).take P.length = P := by
  simp [matchAt]

theorem matchAt_bound {w P : List Nat} {i : Nat} (hP : P ≠ [])
    (h : matchAt w P i = true) : i + P.length ≤ w.length := by
  rw [matchAt_iff] at h
  have hlen := congrArg List.length h
  simp [List.length_take, List.length_drop] at hlen
  have hP' : 0 < P.length := List.length_pos.mpr hP
  omega

theorem matchAt_take {S P : List Nat} {d n i : Nat} (h : i + P.length ≤ n) :
    matchAt ((S.drop d).take n) P i = matchAt S P (d + i) := by
  have key : (((S.drop d).take n).drop i).take P.length = (S.drop (d + i)).take P.length := by
    rw [List.drop_take, List.take_take, List.drop_drop]
    congr 1
    exact inf_eq_left.mpr (by omega)
  simp only [matchAt, key]

end Binmerge

namespace Binmerge

/-! ### Characterization of `stdSearchRes` (the `std::search` call) -/

theorem stdSearchRes_found {w P : List Nat} {stop : Nat}
    (h : stdSearchRes w P stop ≠ stop) :
    stdSearchRes w P stop + P.length ≤ stop ∧
    matchAt w P (stdSearchRes w P stop) = true ∧
    ∀ j, j < stdSearchRes w P stop → ¬(j + P.length ≤ stop ∧ matchAt w P j = true) := by
  rcases hfind : (List.range' 0 (stop + 1)).find?
      (fun i => decide (i + P.length ≤ stop) && matchAt w P i) with _ | i
  · exact absurd (by rw [stdSearchRes, hfind]) h
  · have hres : stdSearchRes w P stop = i := by rw [stdSearchRes, hfind]
    obtain ⟨hp, _, _, hmin⟩ := find?_range'_some hfind
    simp only [Bool.and_eq_true, decide_eq_true_eq] at hp
    rw [hres]
    refine ⟨hp.1, hp.2, fun j hj hcon => ?_⟩
    have hfalse := hmin j (Nat.zero_le j) (by omega)
    simp [hcon.1, hcon.2] at hfalse

theorem stdSearchRes_notfound {w P : List Nat} {stop : Nat} (hP : P ≠ [])
    (h : stdSearchRes w P stop = stop) :
    ∀ j, ¬(j + P.length ≤ stop ∧ matchAt w P j = true) := by
  intro j hcon
  have hPlen : 0 < P.length := List.length_pos.mpr hP
  rcases hfind : (List.range' 0 (stop + 1)).find?
      (fun i => decide (i + P.length ≤ stop) && matchAt w P i) with _ | i
  · have := find?_range'_none hfind j (Nat.zero_le j) (by omega)
    simp [hcon.1, hcon.2] at this
  · have hres : stdSearchRes w P stop = i := by rw [stdSearchRes, hfind]
    obtain ⟨hp, _, _, _⟩ := find?_range'_some hfind
    simp only [Bool.and_eq_true, decide_eq_true_eq] at hp
    omega

/-! ### The rolling-window loop computes the naive search -/

theorem naive_of_found {S P : List Nat} {pos position n stopIdx : Nat} {window : List Nat}
    (hP : P ≠ [])
    (hwin : window = (S.drop position).take n)
    (hstop : stopIdx ≤ window.length)
    (hwn : window.length ≤ n)
    (hpos : pos ≤ position)
    (hnomatch : ∀ j, pos ≤ j → j < position → matchAt S P j = false)
    (hres : stdSearchRes window P stopIdx ≠ stopIdx) :
    naiveSearch S P pos = some (position + stdSearchRes window P stopIdx) := by
  obtain ⟨hfit, hmatch, hmin⟩ := stdSearchRes_found hres
  have hrn : stdSearchRes window P stopIdx + P.length ≤ n :=
    le_trans (le_trans hfit hstop) hwn
  have hmS : matchAt S P (position + stdSearchRes window P stopIdx) = true := by
    have htr := matchAt_take (S := S) (d := position)
      (i := stdSearchRes window P stopIdx) hrn
    rw [← hwin] at htr
    rw [← htr]; exact hmatch
  have hbound := matchAt_bound hP hmS
  have hPlen : 0 < P.length := List.length_pos.mpr hP
  rw [naiveSearch]
  apply find?_range'_eq_some
  · simp only [Bool.and_eq_true, decide_eq_true_eq]
    exact ⟨by omega, hmS⟩
  · omega
  · omega
  · intro j _ hj
    by_cases hpj : pos ≤ j
    · by_cases hjp : j < position
      · simp [hnomatch j hpj hjp]
      · have ht : j - position < stdSearchRes window P stopIdx := by omega
        have hmt := hmin (j - position) ht
        have hnm : matchAt window P (j - position) = false := by
          by_contra hx
          rw [Bool.not_eq_false] at hx
          exact hmt ⟨by omega, hx⟩
        have htn : (j - position) + P.length ≤ n := by omega
        have htr := matchAt_take (S := S) (d := position) (i := j - position) htn
        rw [← hwin] at htr
        rw [show position + (j - position) = j by omega] at htr
        simp [← htr, hnm]
    · simp [hpj]

theorem step_no_new_match {S P : List Nat} {position n prevLen stopIdx : Nat} {window : List Nat}
    (hP : P ≠ [])
    (hwin : window = (S.drop position).take n)
    (hwn : window.length ≤ n)
    (hstop : stopIdx = min (prevLen + P.length - 1) window.length)
    (hcov : ∀ t, t < prevLen → matchAt S P (position + t) = true → t + P.length ≤ window.length)
    (hres : stdSearchRes window P stopIdx = stopIdx) :
    ∀ t, t < prevLen → matchAt S P (position + t) = false := by
  intro t ht
  by_contra hx
  rw [Bool.not_eq_false] at hx
  have hPlen : 0 < P.length := List.length_pos.mpr hP
  have hcw := hcov t ht hx
  have h1 : t + P.length ≤ stopIdx := by
    rw [hstop]
    exact le_min (by omega) hcw
  have h2 : matchAt window P t = true := by
    have htr := matchAt_take (S := S) (d := position) (n := n) (i := t) (le_trans hcw hwn)
    rw [← hwin] at htr
    rw [htr]; exact hx
  exact stdSearchRes_notfound hP hres t ⟨h1, h2⟩

end Binmerge

namespace Binmerge

/-- Invariant-carrying correctness of the `searchInFile` loop: whenever the
pattern is non-empty and no longer than `blockSize + 1`, with enough fuel
the loop returns exactly what the naive in-memory search from `pos`
returns.  The hypotheses are the loop invariants relating the state to the
stream `S`. -/
theorem searchGo_eq_naive (bs : Nat) (S P : List Nat) (pos : Nat)
    (hbs : 1 ≤ bs) (hP : P ≠ []) (hPbs : P.length ≤ bs + 1) (hsz : bs + P.length ≤ 2 ^ 64) :
    ∀ fuel rest good prev rbs position,
      prev ++ rest = S.drop position →
      (good = false → rest = []) →
      prev.length ≤ rbs →
      prev.length ≤ bs →
      pos ≤ position →
      (∀ j, pos ≤ j → j < position → matchAt S P j = false) →
      2 * rest.length + prev.length + (if good = true then 1 else min rbs P.length) < fuel →
      searchGo bs P fuel rest good prev rbs position = some (naiveSearch S P pos) := by
  intro fuel
  induction fuel with
  | zero =>
    intro rest good prev rbs position _ _ _ _ _ _ hfuel
    exact absurd hfuel (Nat.not_lt_zero _)
  | succ fuel ih =>
    intro rest good prev rbs position hsplit hbad hrbs hprevbs hpos hnomatch hfuel
    have hPlen : 0 < P.length := List.length_pos.mpr hP
    have hmod : (prev.length + P.length + (2 ^ 64 - 1)) % 2 ^ 64 = prev.length + P.length - 1 := by
      omega
    rw [searchGo]
    cases good with
    | false =>
      have hrest : rest = [] := hbad rfl
      subst hrest
      rw [if_neg (show ¬(false = true) by simp)] at hfuel
      by_cases hPr : P.length ≤ rbs
      · rw [if_pos (Or.inr hPr)]
        simp only [if_neg (show ¬(false = true) by simp), Bool.false_and, List.append_nil, hmod]
        have hSD : S.drop position = prev := by rw [← hsplit]; simp
        have hlenSD : prev.length = S.length - position := by
          rw [← hSD, List.length_drop]
        by_cases hres : stdSearchRes prev P (min (prev.length + P.length - 1) prev.length) =
            min (prev.length + P.length - 1) prev.length
        · rw [if_pos hres]
          -- no match in the final window: nothing after `position` can match at all
          have hwin' : prev = (S.drop position).take prev.length := by
            rw [hSD, List.take_length]
          have hnomatch' : ∀ j, pos ≤ j → j < position + prev.length → matchAt S P j = false := by
            intro j h1 h2
            by_cases hjp : j < position
            · exact hnomatch j h1 hjp
            · have hcov : ∀ t, t < prev.length → matchAt S P (position + t) = true →
                  t + P.length ≤ prev.length := by
                intro t ht hmt
                have hb := matchAt_bound hP hmt
                omega
              have hstep := step_no_new_match hP hwin' (le_refl _) rfl hcov hres
                (j - position) (by omega)
              rw [show position + (j - position) = j by omega] at hstep
              exact hstep
          apply ih
          · rw [List.nil_append, ← List.drop_drop, hSD]
            simp
          · intro _; rfl
          · exact Nat.zero_le _
          · exact Nat.zero_le _
          · omega
          · exact hnomatch'
          · simp only [if_neg (show ¬(false = true) by simp), List.length_nil, List.length_append]
            omega
        · rw [if_neg hres]
          have hwin' : prev = (S.drop position).take prev.length := by
            rw [hSD, List.take_length]
          have hfound := naive_of_found hP hwin' (min_le_right _ _) (le_refl _)
            hpos hnomatch hres
          rw [hfound]
      · rw [if_neg (by simp [hPr])]
        suffices hn : naiveSearch S P pos = none by rw [hn]
        rw [naiveSearch]
        apply List.find?_eq_none.mpr
        intro j _
        rw [Bool.not_eq_true, Bool.and_eq_false_iff]
        by_cases hpj : pos ≤ j
        · right
          by_cases hjp : j < position
          · exact hnomatch j hpj hjp
          · by_contra hmj
            rw [Bool.not_eq_false] at hmj
            have hb := matchAt_bound hP hmj
            have hlen : (S.drop position).length = prev.length := by
              rw [← hsplit]; simp
            rw [List.length_drop] at hlen
            omega
        · left
          simpa using hpj
    | true =>
      rw [if_pos (Or.inl rfl)]
      simp only [if_pos (show (true = true) from rfl), if_true, Bool.true_and, hmod]
      rw [if_pos (show (true = true) from rfl)] at hfuel
      have hwin : prev ++ rest.take bs = (S.drop position).take (prev.length + bs) := by
        rw [← hsplit, List.take_append]
      have hlenSD : prev.length + rest.length = S.length - position := by
        have hc := congrArg List.length hsplit
        simp only [List.length_append, List.length_drop] at hc
        exact hc
      have hwl : (prev ++ rest.take bs).length = prev.length + min bs rest.length := by
        simp [List.length_append, List.length_take]
      by_cases hres : stdSearchRes (prev ++ rest.take bs) P
          (min (prev.length + P.length - 1) (prev ++ rest.take bs).length) =
          min (prev.length + P.length - 1) (prev ++ rest.take bs).length
      · rw [if_pos hres]
        have hnomatch' : ∀ j, pos ≤ j → j < position + prev.length → matchAt S P j = false := by
          intro j h1 h2
          by_cases hjp : j < position
          · exact hnomatch j h1 hjp
          · have hcov : ∀ t, t < prev.length → matchAt S P (position + t) = true →
                t + P.length ≤ (prev ++ rest.take bs).length := by
              intro t ht hmt
              have hb := matchAt_bound hP hmt
              rw [hwl]
              omega
            have hstep := step_no_new_match hP hwin (by rw [hwl]; omega) rfl hcov hres
              (j - position) (by omega)
            rw [show position + (j - position) = j by omega] at hstep
            exact hstep
        apply ih
        · rw [List.take_append_drop, ← List.drop_drop, ← hsplit, List.drop_left]
        · intro hfull
          rw [decide_eq_false_iff_not, Nat.not_le] at hfull
          exact List.drop_eq_nil_of_le (by omega)
        · rw [hwl, List.length_take]
          omega
        · rw [List.length_take]
          omega
        · omega
        · exact hnomatch'
        · rw [hwl]
          simp only [List.length_drop, List.length_take]
          by_cases hfull : bs ≤ rest.length
          · rw [if_pos (by simp [hfull])]
            omega
          · rw [if_neg (by simp [hfull])]
            omega
      · rw [if_neg hres]
        have hfound := naive_of_found hP hwin (min_le_right _ _) (by rw [hwl]; omega)
          hpos hnomatch hres
        rw [hfound]

end Binmerge

namespace Binmerge

/-- What a successful naive search yields: a position at or after `pos`
where the pattern actually occurs. -/
theorem naiveSearch_some {S P : List Nat} {pos i : Nat} (hP : P ≠ [])
    (h : naiveSearch S P pos = some i) :
    pos ≤ i ∧ i + P.length ≤ S.length ∧ matchAt S P i = true := by
  obtain ⟨hp, _, _, _⟩ := find?_range'_some h
  simp only [Bool.and_eq_true, decide_eq_true_eq] at hp
  exact ⟨hp.1, matchAt_bound hP hp.2, hp.2⟩

/-- The initial fuel passed by `searchInFile` exceeds the loop measure. -/
theorem suffFuel_ok {bs : Nat} (S P : List Nat) (pos : Nat) (hbs : 1 ≤ bs) (hP : P ≠ []) :
    2 * ((S.drop pos).drop bs).length + ((S.drop pos).take bs).length +
      (if decide (bs ≤ (S.drop pos).length) = true then 1
       else min ((S.drop pos).take bs).length P.length) < suffFuel S P := by
  have hPlen : 0 < P.length := List.length_pos.mpr hP
  have l0 : (S.drop pos).length = S.length - pos := List.length_drop _ _
  have l1 : ((S.drop pos).drop bs).length = S.length - pos - bs := by
    rw [List.length_drop, l0]
  have l2 : ((S.drop pos).take bs).length = min bs (S.length - pos) := by
    rw [List.length_take, l0]
  rw [suffFuel, l1, l2]
  by_cases hfull : bs ≤ S.length - pos
  · rw [if_pos (by simp [l0, hfull])]
    omega
  · rw [if_neg (by simp [l0, hfull])]
    omega

/-- Fuel-sufficiency of the `searchInFile` loop for a non-empty pattern:
the measure `2·|rest| + |prev| + (good ? 1 : min rbs |P|)` strictly
decreases every iteration, so the loop never exhausts fuel above it.
(No relation to a stream is needed; this is pure termination.) -/
theorem searchGo_ne_none {bs : Nat} {P : List Nat} (hbs : 1 ≤ bs) (hP : P ≠ []) :
    ∀ fuel rest good prev rbs position,
      2 * rest.length + prev.length + (if good = true then 1 else min rbs P.length) < fuel →
      searchGo bs P fuel rest good prev rbs position ≠ none := by
  intro fuel
  induction fuel with
  | zero =>
    intro rest good prev rbs position hfuel
    exact absurd hfuel (Nat.not_lt_zero _)
  | succ fuel ih =>
    intro rest good prev rbs position hfuel
    have hPlen : 0 < P.length := List.length_pos.mpr hP
    rw [searchGo]
    cases good with
    | false =>
      rw [if_neg (show ¬(false = true) by simp)] at hfuel
      by_cases hPr : P.length ≤ rbs
      · rw [if_pos (Or.inr hPr)]
        simp only [if_neg (show ¬(false = true) by simp), Bool.false_and, List.append_nil]
        by_cases hres : stdSearchRes prev P
            (min ((prev.length + P.length + (2 ^ 64 - 1)) % 2 ^ 64) prev.length) =
            min ((prev.length + P.length + (2 ^ 64 - 1)) % 2 ^ 64) prev.length
        · rw [if_pos hres]
          apply ih
          rw [if_neg (show ¬(false = true) by simp)]
          simp only [List.length_nil]
          omega
        · rw [if_neg hres]
          simp
      · rw [if_neg (by simp [hPr])]
        simp
    | true =>
      rw [if_pos (show (true = true) from rfl)] at hfuel
      rw [if_pos (Or.inl rfl)]
      simp only [if_pos (show (true = true) from rfl), if_true, Bool.true_and]
      by_cases hres : stdSearchRes (prev ++ rest.take bs) P
          (min ((prev.length + P.length + (2 ^ 64 - 1)) % 2 ^ 64) (prev ++ rest.take bs).length) =
          min ((prev.length + P.length + (2 ^ 64 - 1)) % 2 ^ 64) (prev ++ rest.take bs).length
      · rw [if_pos hres]
        apply ih
        simp only [List.length_drop, List.length_take, List.length_append]
        by_cases hfull : bs ≤ rest.length
        · rw [if_pos (by simp [hfull])]
          omega
        · rw [if_neg (by simp [hfull])]
          omega
      · rw [if_neg hres]
        simp

/-- `searchInFile` refines the naive in-memory search: for a non-empty
pattern no longer than `blockSize + 1`, the rolling-window search returns
exactly the naive result from `pos`, for every block size — so the result
is independent of the block size in that range. -/
theorem searchInFile_eq_naive (bs : Nat) (S P : List Nat) (pos : Nat)
    (hbs : 1 ≤ bs) (hP : P ≠ []) (hPbs : P.length ≤ bs + 1) (hsz : bs + P.length ≤ 2 ^ 64) :
    searchInFile bs S P pos = some (resultOfNaive P (naiveSearch S P pos)) := by
  have hgo := searchGo_eq_naive bs S P pos hbs hP hPbs hsz (suffFuel S P)
      ((S.drop pos).drop bs) (decide (bs ≤ (S.drop pos).length)) ((S.drop pos).take bs)
      ((S.drop pos).take bs).length pos
      (List.take_append_drop bs (S.drop pos))
      (fun hf => by
        rw [decide_eq_false_iff_not, Nat.not_le] at hf
        exact List.drop_eq_nil_of_le (le_of_lt hf))
      (le_refl _)
      (by rw [List.length_take]; omega)
      (le_refl pos)
      (fun j h1 h2 => absurd h1 (by omega))
      (suffFuel_ok S P pos hbs hP)
  simp only [searchInFile]
  rw [hgo]
  cases naiveSearch S P pos <;> simp [resultOfNaive]

/-- `searchInFile` terminates for every non-empty pattern. -/
theorem searchInFile_ne_none (bs : Nat) (S P : List Nat) (pos : Nat)
    (hbs : 1 ≤ bs) (hP : P ≠ []) :
    searchInFile bs S P pos ≠ none := by
  simp only [searchInFile]
  rcases hx : searchGo bs P (suffFuel S P) ((S.drop pos).drop bs)
      (decide (bs ≤ (S.drop pos).length)) ((S.drop pos).take bs)
      ((S.drop pos).take bs).length pos with _ | r
  · exact absurd hx (searchGo_ne_none hbs hP _ _ _ _ _ _ (suffFuel_ok S P pos hbs hP))
  · cases r <;> simp

end Binmerge

namespace Binmerge

/-! ### `compareFiles` equals the pointwise difference count -/

theorem countDiffering_nil_left (l : List Nat) : countDiffering [] l = 0 := by
  simp [countDiffering]

theorem countDiffering_nil_right (l : List Nat) : countDiffering l [] = 0 := by
  simp [countDiffering]

theorem countDiffering_split (n : Nat) : ∀ (l1 l2 : List Nat),
    countDiffering l1 l2 =
      countDiffering (l1.take n) (l2.take n) + countDiffering (l1.drop n) (l2.drop n) := by
  induction n with
  | zero => intro l1 l2; simp [countDiffering]
  | succ n ih =>
    intro l1 l2
    cases l1 with
    | nil => simp [countDiffering]
    | cons x xs =>
      cases l2 with
      | nil => simp [countDiffering]
      | cons y ys =>
        simp only [List.take_succ_cons, List.drop_succ_cons, countDiffering,
          List.zip_cons_cons, List.countP_cons]
        have hx := ih xs ys
        simp only [countDiffering] at hx
        omega

theorem countDiffering_le (l1 l2 : List Nat) :
    countDiffering l1 l2 ≤ min l1.length l2.length := by
  calc countDiffering l1 l2 ≤ (l1.zip l2).length := List.countP_le_length _
  _ = min l1.length l2.length := List.length_zip _ _

/-- A stream compared with itself followed by anything differs nowhere. -/
theorem countDiffering_self_append (Y Z : List Nat) : countDiffering Y (Y ++ Z) = 0 := by
  induction Y with
  | nil => simp [countDiffering]
  | cons y ys ih =>
    simp only [List.cons_append, countDiffering, List.zip_cons_cons, List.countP_cons]
    simp only [countDiffering] at ih
    rw [ih]
    simp

theorem compareGo_spec {bs : Nat} (hbs : 1 ≤ bs) :
    ∀ fuel (l1 l2 : List Nat) (acc : Nat), l1.length < fuel →
      compareGo bs fuel l1 l2 acc = acc + countDiffering l1 l2 := by
  intro fuel
  induction fuel with
  | zero =>
    intro l1 l2 acc hf
    exact absurd hf (Nat.not_lt_zero _)
  | succ fuel ih =>
    intro l1 l2 acc hf
    rw [compareGo]
    by_cases hc : bs ≤ l1.length ∧ bs ≤ l2.length
    · rw [if_pos hc]
      rw [ih (l1.drop bs) (l2.drop bs) _ (by simp [List.length_drop]; omega)]
      rw [countDiffering_split bs l1 l2]
      omega
    · rw [if_neg hc]
      rw [countDiffering_split bs l1 l2]
      rcases not_and_or.mp hc with h | h
      · rw [List.drop_eq_nil_of_le (by omega : l1.length ≤ bs), countDiffering_nil_left]
        omega
      · rw [List.drop_eq_nil_of_le (by omega : l2.length ≤ bs), countDiffering_nil_right]
        omega

/-- `compareFiles` counts exactly the pointwise differing positions over
the shorter stream, block structure notwithstanding. -/
theorem compareFiles_eq_countDiffering {bs : Nat} (hbs : 1 ≤ bs) (l1 l2 : List Nat) :
    compareFiles bs l1 l2 = countDiffering l1 l2 := by
  rw [compareFiles, compareGo_spec hbs _ _ _ _ (Nat.lt_succ_self _)]
  simp

/-! ### The rational quota versus its executable comparisons -/

theorem quota_eq_div {r : MatchResult}
    (hd : r.patternFound = true → r.bytesDiffering ≤ r.overlapCount) :
    r.quota = (r.qnum : ℚ) / (r.overlapCount : ℚ) := by
  rw [MatchResult.quota, MatchResult.qnum]
  by_cases hf : r.patternFound = true
  · rw [if_pos hf]
    by_cases ho : r.overlapCount = 0
    · rw [if_pos (by simp [ho]), ho]
      have : r.bytesDiffering = 0 := by have := hd hf; omega
      simp [this]
    · rw [if_neg (by simp [hf, ho])]
      rw [Nat.cast_sub (hd hf)]
  · rw [if_pos (by simp [hf]), if_neg (by simp [hf])]
    simp

theorem quota_nonneg {r : MatchResult}
    (hd : r.patternFound = true → r.bytesDiffering ≤ r.overlapCount) :
    0 ≤ r.quota := by
  rw [quota_eq_div hd]
  positivity

theorem quota_le_one {r : MatchResult}
    (hd : r.patternFound = true → r.bytesDiffering ≤ r.overlapCount) :
    r.quota ≤ 1 := by
  rw [quota_eq_div hd]
  by_cases ho : r.overlapCount = 0
  · simp [ho]
  · rw [div_le_one (by positivity)]
    · norm_cast
      rw [MatchResult.qnum]
      by_cases hf : r.patternFound = true
      · rw [if_pos hf]; omega
      · rw [if_neg hf]; omega

theorem qnum_le {r : MatchResult} : r.qnum ≤ r.overlapCount := by
  rw [MatchResult.qnum]
  by_cases hf : r.patternFound = true
  · rw [if_pos hf]; omega
  · rw [if_neg hf]; omega

theorem quotaLtB_iff {a b : MatchResult}
    (hda : a.patternFound = true → a.bytesDiffering ≤ a.overlapCount)
    (hdb : b.patternFound = true → b.bytesDiffering ≤ b.overlapCount) :
    quotaLtB a b = true ↔ a.quota < b.quota := by
  rw [quota_eq_div hda, quota_eq_div hdb, quotaLtB]
  by_cases hob : b.overlapCount = 0
  · rw [if_pos hob, hob]
    simp only [Nat.cast_zero, div_zero]
    constructor
    · intro h; exact absurd h (by simp)
    · intro h
      exact absurd h (not_lt.mpr (by positivity))
  · rw [if_neg hob]
    by_cases hoa : a.overlapCount = 0
    · rw [if_pos hoa, hoa]
      simp only [Nat.cast_zero, div_zero, decide_eq_true_eq]
      rw [div_pos_iff_of_pos_right (by positivity)]
      exact_mod_cast Iff.rfl
    · rw [if_neg hoa]
      simp only [decide_eq_true_eq]
      rw [div_lt_div_iff₀ (by positivity) (by positivity)]
      exact_mod_cast Iff.rfl

theorem threshGtB_iff {r : MatchResult}
    (hd : r.patternFound = true → r.bytesDiffering ≤ r.overlapCount) :
    threshGtB r = true ↔ (7 : ℚ) / 10 < r.quota := by
  rw [quota_eq_div hd, threshGtB]
  by_cases ho : r.overlapCount = 0
  · have hq : r.qnum = 0 := by
      have := qnum_le (r := r); omega
    rw [ho, hq]
    norm_num
  · simp only [decide_eq_true_eq]
    rw [div_lt_div_iff₀ (by norm_num) (by positivity)]
    constructor
    · intro h
      have h' : 7 * r.overlapCount < r.qnum * 10 := by omega
      exact_mod_cast h'
    · intro h
      have h' : 7 * r.overlapCount < r.qnum * 10 := by exact_mod_cast h
      omega

end Binmerge

namespace Binmerge

/-! ### Step equations for the refinement loop -/

theorem refineGo_notfound {A B P : List Nat} {best : Bool} {fuel : Nat}
    {result last : MatchResult} (hf : last.patternFound = false) :
    refineGo A B P best (fuel+1) result last = some (.ok result) := by
  rw [refineGo, if_neg (by simp [hf])]

theorem refineGo_error {A B P : List Nat} {best : Bool} {fuel : Nat}
    {result last : MatchResult} {e : MergeError}
    (hf : last.patternFound = true) (hca : compareAt A B last.overlapCount = .error e) :
    refineGo A B P best (fuel+1) result last = some (.error e) := by
  rw [refineGo, if_pos (by simp [hf]), hca]

theorem refineGo_step {A B P : List Nat} {best : Bool} {fuel : Nat}
    {result last : MatchResult} {diff : Nat}
    (hf : last.patternFound = true) (hca : compareAt A B last.overlapCount = .ok diff) :
    refineGo A B P best (fuel+1) result last =
      (if (threshGtB (if quotaLtB result { last with bytesDiffering := diff }
            then { last with bytesDiffering := diff } else result) || !best) = true
       then some (.ok (if quotaLtB result { last with bytesDiffering := diff }
            then { last with bytesDiffering := diff } else result))
       else
         match searchInFile 4096 B P (last.matchPosition + 1) with
         | none => none
         | some next => refineGo A B P best fuel
             (if quotaLtB result { last with bytesDiffering := diff }
              then { last with bytesDiffering := diff } else result) next) := by
  rw [refineGo, if_pos (by simp [hf]), hca]

theorem refineCands_notfound {A B P : List Nat} {best : Bool} {fuel : Nat}
    {result last : MatchResult} (hf : last.patternFound = false) :
    refineCands A B P best (fuel+1) result last = [] := by
  rw [refineCands, if_neg (by simp [hf])]

theorem refineCands_error {A B P : List Nat} {best : Bool} {fuel : Nat}
    {result last : MatchResult} {e : MergeError}
    (hf : last.patternFound = true) (hca : compareAt A B last.overlapCount = .error e) :
    refineCands A B P best (fuel+1) result last = [] := by
  rw [refineCands, if_pos (by simp [hf]), hca]

theorem refineCands_step {A B P : List Nat} {best : Bool} {fuel : Nat}
    {result last : MatchResult} {diff : Nat}
    (hf : last.patternFound = true) (hca : compareAt A B last.overlapCount = .ok diff) :
    refineCands A B P best (fuel+1) result last =
      (if (threshGtB (if quotaLtB result { last with bytesDiffering := diff }
            then { last with bytesDiffering := diff } else result) || !best) = true
       then [{ last with bytesDiffering := diff }]
       else
         match searchInFile 4096 B P (last.matchPosition + 1) with
         | none => [{ last with bytesDiffering := diff }]
         | some next => { last with bytesDiffering := diff } :: refineCands A B P best fuel
             (if quotaLtB result { last with bytesDiffering := diff }
              then { last with bytesDiffering := diff } else result) next) := by
  rw [refineCands, if_pos (by simp [hf]), hca]

theorem refineGo_step_stop {A B P : List Nat} {best : Bool} {fuel : Nat}
    {result last : MatchResult} {diff : Nat}
    (hf : last.patternFound = true) (hca : compareAt A B last.overlapCount = .ok diff)
    (hstop : (threshGtB (if quotaLtB result { last with bytesDiffering := diff }
        then { last with bytesDiffering := diff } else result) || !best) = true) :
    refineGo A B P best (fuel+1) result last =
      some (.ok (if quotaLtB result { last with bytesDiffering := diff }
        then { last with bytesDiffering := diff } else result)) := by
  rw [refineGo_step hf hca, if_pos hstop]

theorem refineGo_step_none {A B P : List Nat} {best : Bool} {fuel : Nat}
    {result last : MatchResult} {diff : Nat}
    (hf : last.patternFound = true) (hca : compareAt A B last.overlapCount = .ok diff)
    (hstop : ¬ (threshGtB (if quotaLtB result { last with bytesDiffering := diff }
        then { last with bytesDiffering := diff } else result) || !best) = true)
    (hsi : searchInFile 4096 B P (last.matchPosition + 1) = none) :
    refineGo A B P best (fuel+1) result last = none := by
  rw [refineGo_step hf hca, if_neg hstop, hsi]

theorem refineGo_step_cont {A B P : List Nat} {best : Bool} {fuel : Nat}
    {result last next : MatchResult} {diff : Nat}
    (hf : last.patternFound = true) (hca : compareAt A B last.overlapCount = .ok diff)
    (hstop : ¬ (threshGtB (if quotaLtB result { last with bytesDiffering := diff }
        then { last with bytesDiffering := diff } else result) || !best) = true)
    (hsi : searchInFile 4096 B P (last.matchPosition + 1) = some next) :
    refineGo A B P best (fuel+1) result last =
      refineGo A B P best fuel
        (if quotaLtB result { last with bytesDiffering := diff }
         then { last with bytesDiffering := diff } else result) next := by
  rw [refineGo_step hf hca, if_neg hstop, hsi]

theorem refineCands_step_stop {A B P : List Nat} {best : Bool} {fuel : Nat}
    {result last : MatchResult} {diff : Nat}
    (hf : last.patternFound = true) (hca : compareAt A B last.overlapCount = .ok diff)
    (hstop : (threshGtB (if quotaLtB result { last with bytesDiffering := diff }
        then { last with bytesDiffering := diff } else result) || !best) = true) :
    refineCands A B P best (fuel+1) result last = [{ last with bytesDiffering := diff }] := by
  rw [refineCands_step hf hca, if_pos hstop]

theorem refineCands_step_none {A B P : List Nat} {best : Bool} {fuel : Nat}
    {result last : MatchResult} {diff : Nat}
    (hf : last.patternFound = true) (hca : compareAt A B last.overlapCount = .ok diff)
    (hstop : ¬ (threshGtB (if quotaLtB result { last with bytesDiffering := diff }
        then { last with bytesDiffering := diff } else result) || !best) = true)
    (hsi : searchInFile 4096 B P (last.matchPosition + 1) = none) :
    refineCands A B P best (fuel+1) result last = [{ last with bytesDiffering := diff }] := by
  rw [refineCands_step hf hca, if_neg hstop, hsi]

theorem refineCands_step_cont {A B P : List Nat} {best : Bool} {fuel : Nat}
    {result last next : MatchResult} {diff : Nat}
    (hf : last.patternFound = true) (hca : compareAt A B last.overlapCount = .ok diff)
    (hstop : ¬ (threshGtB (if quotaLtB result { last with bytesDiffering := diff }
        then { last with bytesDiffering := diff } else result) || !best) = true)
    (hsi : searchInFile 4096 B P (last.matchPosition + 1) = some next) :
    refineCands A B P best (fuel+1) result last =
      { last with bytesDiffering := diff } :: refineCands A B P best fuel
        (if quotaLtB result { last with bytesDiffering := diff }
         then { last with bytesDiffering := diff } else result) next := by
  rw [refineCands_step hf hca, if_neg hstop, hsi]

/-! ### Invariants of the refinement loop -/

theorem compareAt_ok_le {A B : List Nat} {o d : Nat} (h : compareAt A B o = .ok d) : d ≤ o := by
  rw [compareAt] at h
  by_cases ho : o ≤ A.length
  · rw [if_pos ho] at h
    simp only [Except.ok.injEq] at h
    rw [compareFiles_eq_countDiffering (by norm_num)] at h
    have hle := countDiffering_le (A.drop (A.length - o)) B
    rw [List.length_drop] at hle
    omega
  · rw [if_neg ho] at h
    exact absurd h (by simp)

theorem GoodResult_default : GoodResult (default : MatchResult) :=
  ⟨fun h => by simp [default] at h ⊢, fun _ => rfl⟩

theorem GoodResult_last' {last : MatchResult} {diff : Nat}
    (hf : last.patternFound = true) (hd : diff ≤ last.overlapCount) :
    GoodResult { last with bytesDiffering := diff } := by
  constructor
  · intro _
    exact hd
  · intro hff
    rw [show ({ last with bytesDiffering := diff } : MatchResult).patternFound
        = last.patternFound from rfl, hf] at hff
    exact absurd hff (by simp)

theorem GoodResult_select {result last' : MatchResult}
    (h1 : GoodResult result) (h2 : GoodResult last') :
    GoodResult (if quotaLtB result last' then last' else result) := by
  by_cases hlt : quotaLtB result last' = true
  · rw [if_pos hlt]; exact h2
  · rw [if_neg hlt]; exact h1

/-- Every result the refinement loop returns satisfies the `MatchResult`
invariants, given that the running best does. -/
theorem refineGo_good {A B P : List Nat} {best : Bool} :
    ∀ fuel (result last r : MatchResult), GoodResult result →
      refineGo A B P best fuel result last = some (.ok r) → GoodResult r := by
  intro fuel
  induction fuel with
  | zero =>
    intro result last r _ h
    exact absurd h (by rw [refineGo]; simp)
  | succ fuel ih =>
    intro result last r hres h
    by_cases hf : last.patternFound = true
    · rcases hca : compareAt A B last.overlapCount with e | diff
      · rw [refineGo_error hf hca] at h
        exact absurd h (by simp)
      · have hgl : GoodResult { last with bytesDiffering := diff } :=
          GoodResult_last' hf (compareAt_ok_le hca)
        have hgr : GoodResult (if quotaLtB result { last with bytesDiffering := diff }
            then { last with bytesDiffering := diff } else result) :=
          GoodResult_select hres hgl
        by_cases hstop : (threshGtB (if quotaLtB result { last with bytesDiffering := diff }
            then { last with bytesDiffering := diff } else result) || !best) = true
        · rw [refineGo_step_stop hf hca hstop] at h
          simp only [Option.some.injEq, Except.ok.injEq] at h
          exact h ▸ hgr
        · rcases hsi : searchInFile 4096 B P (last.matchPosition + 1) with _ | next
          · rw [refineGo_step_none hf hca hstop hsi] at h
            exact absurd h (by simp)
          · rw [refineGo_step_cont hf hca hstop hsi] at h
            exact ih _ next r hgr h
    · have hf' : last.patternFound = false := by
        cases hx : last.patternFound
        · rfl
        · exact absurd hx hf
      rw [refineGo_notfound hf'] at h
      simp only [Option.some.injEq, Except.ok.injEq] at h
      exact h ▸ hres

end Binmerge

namespace Binmerge

theorem quota_select_max {result last' : MatchResult}
    (h1 : GoodResult result) (h2 : GoodResult last') :
    (if quotaLtB result last' then last' else result).quota = max result.quota last'.quota := by
  by_cases hlt : quotaLtB result last' = true
  · rw [if_pos hlt, max_eq_right (le_of_lt ((quotaLtB_iff h1.1 h2.1).mp hlt))]
  · rw [if_neg hlt, max_eq_left]
    rw [← not_lt]
    intro hc
    exact hlt ((quotaLtB_iff h1.1 h2.1).mpr hc)

/-- The refinement loop returns the best-quota result among the running
best it started from and every candidate it examined; the returned value
is one of those. -/
theorem refineGo_best {A B P : List Nat} {best : Bool} :
    ∀ fuel (result last r : MatchResult), GoodResult result →
      refineGo A B P best fuel result last = some (.ok r) →
      (r = result ∨ r ∈ refineCands A B P best fuel result last) ∧
      result.quota ≤ r.quota ∧
      ∀ c ∈ refineCands A B P best fuel result last, c.quota ≤ r.quota := by
  intro fuel
  induction fuel with
  | zero =>
    intro result last r _ h
    exact absurd h (by rw [refineGo]; simp)
  | succ fuel ih =>
    intro result last r hres h
    by_cases hf : last.patternFound = true
    · rcases hca : compareAt A B last.overlapCount with e | diff
      · rw [refineGo_error hf hca] at h
        exact absurd h (by simp)
      · have hgl : GoodResult { last with bytesDiffering := diff } :=
          GoodResult_last' hf (compareAt_ok_le hca)
        have hgr : GoodResult (if quotaLtB result { last with bytesDiffering := diff }
            then { last with bytesDiffering := diff } else result) :=
          GoodResult_select hres hgl
        have hqmax := quota_select_max hres hgl
        by_cases hstop : (threshGtB (if quotaLtB result { last with bytesDiffering := diff }
            then { last with bytesDiffering := diff } else result) || !best) = true
        · rw [refineGo_step_stop hf hca hstop] at h
          rw [refineCands_step_stop hf hca hstop]
          simp only [Option.some.injEq, Except.ok.injEq] at h
          subst h
          refine ⟨?_, ?_, ?_⟩
          · by_cases hlt : quotaLtB result { last with bytesDiffering := diff } = true
            · rw [if_pos hlt]
              exact Or.inr (List.mem_singleton_self _)
            · rw [if_neg hlt]
              exact Or.inl rfl
          · rw [hqmax]
            exact le_max_left _ _
          · intro c hc
            rw [List.mem_singleton] at hc
            subst hc
            rw [hqmax]
            exact le_max_right _ _
        · rcases hsi : searchInFile 4096 B P (last.matchPosition + 1) with _ | next
          · rw [refineGo_step_none hf hca hstop hsi] at h
            exact absurd h (by simp)
          · rw [refineGo_step_cont hf hca hstop hsi] at h
            rw [refineCands_step_cont hf hca hstop hsi]
            obtain ⟨hmem, hle, hall⟩ := ih _ next r hgr h
            refine ⟨?_, ?_, ?_⟩
            · rcases hmem with hre | hm
              · by_cases hlt : quotaLtB result { last with bytesDiffering := diff } = true
                · rw [if_pos hlt] at hre
                  exact Or.inr (hre ▸ List.mem_cons_self _ _)
                · rw [if_neg hlt] at hre
                  exact Or.inl hre
              · exact Or.inr (List.mem_cons_of_mem _ hm)
            · calc result.quota ≤ max result.quota
                    ({ last with bytesDiffering := diff } : MatchResult).quota :=
                    le_max_left _ _
                _ = _ := hqmax.symm
                _ ≤ r.quota := hle
            · intro c hc
              rcases List.mem_cons.mp hc with hcl | hct
              · rw [hcl]
                exact le_trans (le_trans (le_max_right result.quota _)
                  (le_of_eq hqmax.symm)) hle
              · exact hall c hct
    · have hf' : last.patternFound = false := by
        cases hx : last.patternFound
        · rfl
        · exact absurd hx hf
      rw [refineGo_notfound hf'] at h
      rw [refineCands_notfound hf']
      simp only [Option.some.injEq, Except.ok.injEq] at h
      subst h
      exact ⟨Or.inl rfl, le_refl _, by simp⟩

/-- With continuous search disabled, at most one candidate is examined. -/
theorem refineCands_single {A B P : List Nat} :
    ∀ fuel (result last : MatchResult),
      (refineCands A B P false fuel result last).length ≤ 1 := by
  intro fuel result last
  cases fuel with
  | zero => rw [refineCands]; simp
  | succ fuel =>
    by_cases hf : last.patternFound = true
    · rcases hca : compareAt A B last.overlapCount with e | diff
      · rw [refineCands_error hf hca]; simp
      · rw [refineCands_step_stop hf hca (by simp)]
        simp
    · have hf' : last.patternFound = false := by
        cases hx : last.patternFound
        · rfl
        · exact absurd hx hf
      rw [refineCands_notfound hf']
      simp

theorem runBest_cons (q : ℚ) (c : MatchResult) (l : List MatchResult) :
    runBest q (c :: l) = runBest (max q c.quota) l := rfl

/-- With continuous search enabled, the loop only goes on to examine
another candidate while the best quota so far is at most 0.7. -/
theorem refineCands_stop {A B P : List Nat} :
    ∀ fuel (result last : MatchResult) (n : Nat), GoodResult result →
      n + 1 < (refineCands A B P true fuel result last).length →
      runBest result.quota ((refineCands A B P true fuel result last).take (n + 1)) ≤ 7 / 10 := by
  intro fuel
  induction fuel with
  | zero =>
    intro result last n _ hn
    rw [refineCands] at hn
    simp at hn
  | succ fuel ih =>
    intro result last n hres hn
    by_cases hf : last.patternFound = true
    · rcases hca : compareAt A B last.overlapCount with e | diff
      · rw [refineCands_error hf hca] at hn
        simp at hn
      · have hgl : GoodResult { last with bytesDiffering := diff } :=
          GoodResult_last' hf (compareAt_ok_le hca)
        have hgr : GoodResult (if quotaLtB result { last with bytesDiffering := diff }
            then { last with bytesDiffering := diff } else result) :=
          GoodResult_select hres hgl
        have hqmax := quota_select_max hres hgl
        by_cases hstop : (threshGtB (if quotaLtB result { last with bytesDiffering := diff }
            then { last with bytesDiffering := diff } else result) || !true) = true
        · rw [refineCands_step_stop hf hca hstop] at hn
          simp at hn
        · have hth : ¬ (7 : ℚ) / 10 < (if quotaLtB result { last with bytesDiffering := diff }
              then { last with bytesDiffering := diff } else result).quota := by
            intro hc
            exact hstop (by simp [(threshGtB_iff hgr.1).mpr hc])
          rw [not_lt] at hth
          rcases hsi : searchInFile 4096 B P (last.matchPosition + 1) with _ | next
          · rw [refineCands_step_none hf hca hstop hsi] at hn
            simp at hn
          · rw [refineCands_step_cont hf hca hstop hsi] at hn ⊢
            rw [List.length_cons] at hn
            rw [List.take_succ_cons, runBest_cons, ← hqmax]
            cases n with
            | zero =>
              rw [List.take_zero]
              exact hth
            | succ m =>
              exact ih _ next m hgr (by omega)
    · have hf' : last.patternFound = false := by
        cases hx : last.patternFound
        · rfl
        · exact absurd hx hf
      rw [refineCands_notfound hf'] at hn
      simp at hn

end Binmerge

namespace Binmerge

theorem patternFound_false_of_ne {last : MatchResult} (hf : ¬last.patternFound = true) :
    last.patternFound = false := by
  cases hx : last.patternFound
  · rfl
  · exact absurd hx hf

/-- Termination of the refinement loop for a non-empty pattern: each retry
restarts the search at `matchPosition + 1`, so the remaining stream length
`|B| + 1 - matchPosition` strictly decreases. -/
theorem refineGo_ne_none {A B P : List Nat} {best : Bool}
    (hP : P ≠ []) (hPb : P.length ≤ 4097) :
    ∀ fuel (result last : MatchResult),
      (last.patternFound = true → last.matchPosition + P.length ≤ B.length) →
      (if last.patternFound = true then B.length + 1 - last.matchPosition else 1) ≤ fuel →
      refineGo A B P best fuel result last ≠ none := by
  have hPlen : 0 < P.length := List.length_pos.mpr hP
  intro fuel
  induction fuel with
  | zero =>
    intro result last hlast hfuel
    by_cases hf : last.patternFound = true
    · rw [if_pos hf] at hfuel
      have := hlast hf
      omega
    · rw [if_neg hf] at hfuel
      omega
  | succ fuel ih =>
    intro result last hlast hfuel
    by_cases hf : last.patternFound = true
    · rcases hca : compareAt A B last.overlapCount with e | diff
      · rw [refineGo_error hf hca]
        simp
      · by_cases hstop : (threshGtB (if quotaLtB result { last with bytesDiffering := diff }
            then { last with bytesDiffering := diff } else result) || !best) = true
        · rw [refineGo_step_stop hf hca hstop]
          simp
        · have hsome := searchInFile_eq_naive 4096 B P (last.matchPosition + 1)
            (by norm_num) hP (by omega) (by omega)
          rw [refineGo_step_cont hf hca hstop hsome]
          apply ih
          · intro hfn
            rcases hnv : naiveSearch B P (last.matchPosition + 1) with _ | i
            · rw [hnv] at hfn
              simp [resultOfNaive] at hfn
            · obtain ⟨_, hbound, _⟩ := naiveSearch_some hP hnv
              simpa [resultOfNaive] using hbound
          · have hm := hlast hf
            rw [if_pos hf] at hfuel
            rcases hnv : naiveSearch B P (last.matchPosition + 1) with _ | i
            · simp only [resultOfNaive]
              rw [if_neg (by simp)]
              omega
            · obtain ⟨hge, hbound, _⟩ := naiveSearch_some hP hnv
              simp only [resultOfNaive]
              rw [if_pos (by simp)]
              show B.length + 1 - i ≤ fuel
              omega
    · rw [refineGo_notfound (patternFound_false_of_ne hf)]
      simp

/-- The pattern `main` extracts from a non-empty predecessor is non-empty
(a file of at least 20 bytes yields its last 20 bytes; a shorter file
yields the whole file). -/
theorem extractPattern_ne_nil {A : List Nat} (hA : A ≠ []) : extractPattern A ≠ [] := by
  rw [extractPattern]
  by_cases h20 : 20 ≤ A.length
  · rw [if_pos h20]
    have : (A.drop (A.length - 20)).length = 20 := by
      rw [List.length_drop]
      omega
    intro hx
    rw [hx] at this
    simp at this
  · rw [if_neg h20]
    exact hA

theorem extractPattern_length_le (A : List Nat) : (extractPattern A).length ≤ 20 := by
  rw [extractPattern]
  by_cases h20 : 20 ≤ A.length
  · rw [if_pos h20, List.length_drop]
    omega
  · rw [if_neg h20]
    omega

/-- `processPair` always terminates when the predecessor is non-empty. -/
theorem processPair_ne_none {A B : List Nat} {best : Bool} (hA : A ≠ []) :
    processPair A B best ≠ none := by
  have hP : extractPattern A ≠ [] := extractPattern_ne_nil hA
  have hPlen : 0 < (extractPattern A).length := List.length_pos.mpr hP
  have hPb : (extractPattern A).length ≤ 20 := extractPattern_length_le A
  have hsome := searchInFile_eq_naive 4096 B (extractPattern A) 0
    (by norm_num) hP (by omega) (by omega)
  simp only [processPair]
  rw [hsome]
  apply refineGo_ne_none hP (by omega)
  · intro hfn
    rcases hnv : naiveSearch B (extractPattern A) 0 with _ | i
    · rw [hnv] at hfn
      simp [resultOfNaive] at hfn
    · obtain ⟨_, hbound, _⟩ := naiveSearch_some hP hnv
      simpa [resultOfNaive] using hbound
  · rcases hnv : naiveSearch B (extractPattern A) 0 with _ | i
    · simp only [resultOfNaive]
      rw [if_neg (by simp)]
      omega
    · simp only [resultOfNaive]
      rw [if_pos (by simp)]
      show B.length + 1 - i ≤ B.length + 2
      omega

/-- Every `MatchResult` that `processPair` hands to the caller satisfies
the scan-phase invariants. -/
theorem processPair_good {A B : List Nat} {best : Bool} {r : MatchResult}
    (h : processPair A B best = some (.ok r)) : GoodResult r := by
  simp only [processPair] at h
  rcases hsi : searchInFile 4096 B (extractPattern A) 0 with _ | first
  · rw [hsi] at h
    exact absurd h (by simp)
  · rw [hsi] at h
    exact refineGo_good _ _ _ _ GoodResult_default h

end Binmerge

namespace Binmerge

/-- The `quota` accessor agrees with the spec formula
`found ? (overlapCount − bytesDiffering) / overlapCount : 0`
(in `ℚ`, division by zero is zero, which matches the code's guard). -/
theorem quota_formula (r : MatchResult) :
    r.quota = (if r.patternFound = true
      then ((r.overlapCount : ℚ) - (r.bytesDiffering : ℚ)) / (r.overlapCount : ℚ)
      else 0) := by
  rw [MatchResult.quota]
  by_cases hf : r.patternFound = true
  · rw [if_pos hf]
    by_cases ho : r.overlapCount = 0
    · rw [if_pos (by simp [hf, ho]), ho]
      simp
    · rw [if_neg (by simp [hf, ho])]
  · rw [if_neg hf, if_pos (by simp [hf])]

/-- Per-file contribution of `mergeFiles` equals a drop at the cut offset. -/
theorem contribution_eq_cut (d : List Nat) (rs : List MatchResult) (i : Nat) :
    (if 0 < i ∧ ((rs.getD (i-1) default).patternFound = true)
     then d.drop ((rs.getD (i-1) default).overlapCount) else d) = d.drop (cutOffset rs i) := by
  rw [cutOffset]
  by_cases hi : i = 0
  · rw [if_pos hi, if_neg (by omega), List.drop_zero]
  · rw [if_neg hi]
    by_cases hfound : (rs.getD (i-1) default).patternFound = true
    · rw [if_pos ⟨by omega, hfound⟩, if_pos hfound]
    · rw [if_neg (by intro hc; exact hfound hc.2), if_neg hfound, List.drop_zero]

/-- A `takeWhile` whose predicate holds on every element keeps the whole
list. -/
theorem takeWhile_of_all {α : Type} (p : α → Bool) :
    ∀ (l : List α), (∀ a ∈ l, p a = true) → l.takeWhile p = l := by
  intro l
  induction l with
  | nil => intro _; rfl
  | cons a l ih =>
    intro h
    rw [List.takeWhile_cons, if_pos (h a (by simp)), ih (fun b hb => h b (by simp [hb]))]

theorem mergeGoOpt_map_some :
    ∀ (files : List (List Nat)) (rs : List MatchResult) (i : Nat),
      mergeGoOpt (files.map some) rs i =
        (((List.range files.length).map
          (fun t => (files.getD t []).drop (cutOffset rs (i + t)))).takeWhile
            (fun c => !c.isEmpty)).flatten := by
  intro files
  induction files with
  | nil =>
    intro rs i
    simp [mergeGoOpt]
  | cons d fs ih =>
    intro rs i
    rw [List.map_cons]
    simp only [mergeGoOpt]
    rw [contribution_eq_cut, List.length_cons, List.range_succ_eq_map, List.map_cons]
    simp only [List.getD_cons_zero, Nat.add_zero, List.map_map]
    rw [List.takeWhile_cons]
    have htail : List.map ((fun t => ((d :: fs).getD t []).drop (cutOffset rs (i + t))) ∘ Nat.succ)
        (List.range fs.length) =
        List.map (fun t => (fs.getD t []).drop (cutOffset rs (i + 1 + t)))
          (List.range fs.length) := by
      apply List.map_congr_left
      intro t _
      simp only [Function.comp_apply, List.getD_cons_succ]
      have hidx : i + Nat.succ t = i + 1 + t := by omega
      rw [hidx]
    by_cases hc : d.drop (cutOffset rs i) = []
    · rw [if_pos hc, if_neg (by simp [hc])]
      simp
    · rw [if_neg hc, if_pos (by simp [hc])]
      rw [List.flatten_cons, htail, ih rs (i+1)]

/-- `mergeFiles` stops at the first input that fails to open, leaving the
prefix contributions as the partial output. -/
theorem mergeGoOpt_stop :
    ∀ (pre : List (List Nat)) (post : List (Option (List Nat)))
      (rs : List MatchResult) (i : Nat),
      mergeGoOpt (pre.map some ++ none :: post) rs i = mergeGoOpt (pre.map some) rs i := by
  intro pre
  induction pre with
  | nil =>
    intro post rs i
    simp [mergeGoOpt]
  | cons d fs ih =>
    intro post rs i
    rw [List.map_cons, List.cons_append]
    simp only [mergeGoOpt]
    rw [ih post rs (i+1)]

/-- When the scan succeeds and the user confirms, `main` calls
`mergeFiles` and then returns 0 — also when the output sink fails to
open, in which case nothing has been written. -/
theorem runMain_outputFail {A : List Nat} {rest : List (Option (List Nat))} {best : Bool}
    {rs : List MatchResult} (h : scanGo A rest best = some (.ok rs)) :
    runMain (some A :: rest) best false true = some (0, []) := by
  simp only [runMain]
  rw [h]
  simp [mergeFilesRun]

end Binmerge

namespace Binmerge

/-- The round-trip pair: predecessor `X ++ Y`, successor `Y ++ Z`, with a
fingerprint of the last 20 bytes of `Y` that has no earlier (coincidental)
occurrence in the successor.  The scan finds the true overlap `Y` with a
perfect score. -/
theorem processPair_roundtrip (X Y Z : List Nat) (best : Bool) (hk : 20 ≤ Y.length)
    (hearly : ∀ j, j < Y.length - 20 → matchAt (Y ++ Z) (extractPattern (X ++ Y)) j = false) :
    processPair (X ++ Y) (Y ++ Z) best =
      some (.ok ⟨true, Y.length - 20, 20, 0⟩) := by
  have hPdef : extractPattern (X ++ Y) = Y.drop (Y.length - 20) := by
    rw [extractPattern, if_pos (by rw [List.length_append]; omega)]
    rw [show (X ++ Y).length - 20 = X.length + (Y.length - 20) by rw [List.length_append]; omega]
    exact List.drop_append _
  have hPlen20 : (extractPattern (X ++ Y)).length = 20 := by
    rw [hPdef, List.length_drop]
    omega
  have hPne : extractPattern (X ++ Y) ≠ [] := by
    intro hx
    rw [hx] at hPlen20
    simp at hPlen20
  have hocc : matchAt (Y ++ Z) (extractPattern (X ++ Y)) (Y.length - 20) = true := by
    rw [matchAt_iff, hPlen20, hPdef]
    rw [List.drop_append_of_le_length (by omega)]
    have h1 : (Y.drop (Y.length - 20)).length = 20 := by
      rw [List.length_drop]
      omega
    calc (Y.drop (Y.length - 20) ++ Z).take 20
        = (Y.drop (Y.length - 20) ++ Z).take (Y.drop (Y.length - 20)).length := by rw [h1]
      _ = Y.drop (Y.length - 20) := List.take_left _ _
  have hnaive : naiveSearch (Y ++ Z) (extractPattern (X ++ Y)) 0 = some (Y.length - 20) := by
    rw [naiveSearch]
    apply find?_range'_eq_some
    · simp only [Bool.and_eq_true, decide_eq_true_eq]
      exact ⟨Nat.zero_le _, hocc⟩
    · exact Nat.zero_le _
    · rw [List.length_append]
      omega
    · intro j _ hj
      have hej := hearly j hj
      simp [hej]
  have hsearch := searchInFile_eq_naive 4096 (Y ++ Z) (extractPattern (X ++ Y)) 0
      (by norm_num) hPne (by rw [hPlen20]; omega) (by rw [hPlen20]; omega)
  rw [hnaive] at hsearch
  simp only [resultOfNaive] at hsearch
  rw [hPlen20] at hsearch
  simp only [processPair]
  rw [hsearch]
  show refineGo (X ++ Y) (Y ++ Z) (extractPattern (X ++ Y)) best ((Y ++ Z).length + 2)
      default ⟨true, Y.length - 20, 20, 0⟩ = some (.ok ⟨true, Y.length - 20, 20, 0⟩)
  have hfound : (⟨true, Y.length - 20, 20, 0⟩ : MatchResult).patternFound = true := rfl
  have hoc : (⟨true, Y.length - 20, 20, 0⟩ : MatchResult).overlapCount = Y.length := by
    simp only [MatchResult.overlapCount]
    omega
  have hca : compareAt (X ++ Y) (Y ++ Z)
      (⟨true, Y.length - 20, 20, 0⟩ : MatchResult).overlapCount = .ok 0 := by
    rw [hoc, compareAt, if_pos (by rw [List.length_append]; omega)]
    rw [compareFiles_eq_countDiffering (by norm_num)]
    rw [show (X ++ Y).length - Y.length = X.length by rw [List.length_append]; omega]
    rw [List.drop_left, countDiffering_self_append]
  have hqnum : (⟨true, Y.length - 20, 20, 0⟩ : MatchResult).qnum = Y.length := by
    rw [MatchResult.qnum, if_pos hfound, hoc]
    rfl
  have hlt : quotaLtB default ⟨true, Y.length - 20, 20, 0⟩ = true := by
    rw [quotaLtB, if_neg (by rw [hoc]; omega),
      if_pos (show (default : MatchResult).overlapCount = 0 from rfl)]
    rw [decide_eq_true_eq, hqnum]
    omega
  have hth : threshGtB ⟨true, Y.length - 20, 20, 0⟩ = true := by
    rw [threshGtB, decide_eq_true_eq, hqnum, hoc]
    omega
  have hupd : ({ (⟨true, Y.length - 20, 20, 0⟩ : MatchResult) with bytesDiffering := 0 }
      : MatchResult) = ⟨true, Y.length - 20, 20, 0⟩ := rfl
  have hstop : (threshGtB (if quotaLtB default ⟨true, Y.length - 20, 20, 0⟩
      then (⟨true, Y.length - 20, 20, 0⟩ : MatchResult) else default) || !best) = true := by
    rw [if_pos hlt, hth]
    simp
  rw [refineGo_step_stop hfound hca hstop]
  rw [hupd, if_pos hlt]

/-- Assembling the round-trip pair with its perfect result glues the
streams back together. -/
theorem merge_roundtrip (X Y Z : List Nat) (hk : 20 ≤ Y.length) :
    mergeFilesOut [X ++ Y, Y ++ Z] [⟨true, Y.length - 20, 20, 0⟩] = X ++ Y ++ Z := by
  have hdrop : (Y ++ Z).drop
      ((([⟨true, Y.length - 20, 20, 0⟩] : List MatchResult).getD
        (0 + 1 - 1) default).overlapCount) = Z := by
    show (Y ++ Z).drop (Y.length - 20 + 20) = Z
    rw [show Y.length - 20 + 20 = Y.length by omega]
    exact List.drop_left Y Z
  have hXY : X ++ Y ≠ [] := by
    have hYne : Y ≠ [] := by
      intro h
      rw [h] at hk
      simp at hk
    simp [hYne]
  have h0 : ¬(0 < 0 ∧ (([⟨true, Y.length - 20, 20, 0⟩] : List MatchResult).getD
      (0 - 1) default).patternFound = true) := by
    simp
  have hcond1 : 0 < 0 + 1 ∧ (([⟨true, Y.length - 20, 20, 0⟩] : List MatchResult).getD
      (0 + 1 - 1) default).patternFound = true :=
    ⟨by omega, rfl⟩
  simp only [mergeFilesOut, List.map_cons, List.map_nil, mergeGoOpt]
  rw [if_neg h0, if_pos hcond1, hdrop, if_neg hXY]
  by_cases hZ : Z = []
  · rw [if_pos hZ, hZ]
  · rw [if_neg hZ]
    simp [List.append_assoc]

end Binmerge

namespace Binmerge

/-! ## The claims -/

/-- C1 (amended): for every stream `S`, every start offset, and every
non-empty pattern `P` of length at most `blockSize + 1`, `searchInFile`
returns found = true with `matchPosition` the earliest offset `≥ pos` at
which `P` occurs in `S` (and `patternSize = |P|`), and found = false when
there is no occurrence — i.e. exactly the result of the straightforward
in-memory search, for every block size in that range (so the result does
not depend on the block size).  The original claim, for arbitrary
patterns, fails: see `C1_blocksize_counterexample`. -/
theorem C1_searchInFile_refines_naive (bs : Nat) (S P : List Nat) (pos : Nat)
    (hbs : 1 ≤ bs) (hP : P ≠ []) (hPbs : P.length ≤ bs + 1) (hsz : bs + P.length ≤ 2 ^ 64) :
    searchInFile bs S P pos = some (resultOfNaive P (naiveSearch S P pos)) :=
  searchInFile_eq_naive bs S P pos hbs hP hPbs hsz

/-- C1 counterexample: with block size 2 a pattern of length 4 (that is,
longer than blockSize + 1) straddling the shift boundary is missed, while
the naive search finds it at offset 1 and a larger block size finds it
too — the result is not independent of the block size. -/
theorem C1_blocksize_counterexample :
    naiveSearch [0, 1, 0, 0, 0] [1, 0, 0, 0] 0 = some 1 ∧
    searchInFile 5 [0, 1, 0, 0, 0] [1, 0, 0, 0] 0 = some ⟨true, 1, 4, 0⟩ ∧
    searchInFile 2 [0, 1, 0, 0, 0] [1, 0, 0, 0] 0 = some ⟨false, 0, 0, 0⟩ :=
  ⟨by decide, by decide, by decide⟩

/-- C1 witness: the theorem applied at a concrete stream and pattern. -/
theorem C1_searchInFile_refines_naive_witness :
    (1 : Nat) ≤ 4096 ∧ ([2, 3] : List Nat) ≠ [] ∧
    ([2, 3] : List Nat).length ≤ 4096 + 1 ∧ 4096 + ([2, 3] : List Nat).length ≤ 2 ^ 64 ∧
    searchInFile 4096 [1, 2, 3] [2, 3] 0 =
      some (resultOfNaive [2, 3] (naiveSearch [1, 2, 3] [2, 3] 0)) :=
  ⟨by decide, by decide, by decide, by decide,
   C1_searchInFile_refines_naive 4096 [1, 2, 3] [2, 3] 0 (by decide) (by decide)
     (by decide) (by decide)⟩

/-- C2 (amended): the assembled output is the concatenation, in file
order, of each file's bytes from its cut offset to end-of-file (cut
offset 0 for the first file, the preceding pair's `overlapCount` when
that pair's pattern was found — regardless of quality — and 0 when not),
but only UP TO the first file whose post-cut contribution is empty:
`outputFile << inputFile.rdbuf()` sets `failbit` on a zero-byte insert
and every later file is silently dropped.  When every contribution is
non-empty the output is exactly the full concatenation.  The original
unconditional concatenation claim fails: see
`C2_failbit_counterexample`. -/
theorem C2_merge_is_concatenation (files : List (List Nat)) (rs : List MatchResult) :
    mergeFilesOut files rs =
      (((List.range files.length).map
        (fun i => (files.getD i []).drop (cutOffset rs i))).takeWhile
          (fun c => !c.isEmpty)).flatten ∧
    ((∀ i, i < files.length → (files.getD i []).drop (cutOffset rs i) ≠ []) →
      mergeFilesOut files rs =
        ((List.range files.length).map
          (fun i => (files.getD i []).drop (cutOffset rs i))).flatten) := by
  have hmap : List.map (fun t => (files.getD t []).drop (cutOffset rs (0 + t)))
      (List.range files.length) =
      List.map (fun i => (files.getD i []).drop (cutOffset rs i)) (List.range files.length) := by
    apply List.map_congr_left
    intro t _
    rw [Nat.zero_add]
  have hmain : mergeFilesOut files rs =
      (((List.range files.length).map
        (fun i => (files.getD i []).drop (cutOffset rs i))).takeWhile
          (fun c => !c.isEmpty)).flatten := by
    rw [mergeFilesOut, mergeGoOpt_map_some files rs 0, hmap]
  refine ⟨hmain, fun hne => ?_⟩
  rw [hmain]
  congr 1
  apply takeWhile_of_all
  intro c hcmem
  rw [List.mem_map] at hcmem
  obtain ⟨t, htmem, hceq⟩ := hcmem
  rw [List.mem_range] at htmem
  subst hceq
  show (!((files.getD t []).drop (cutOffset rs t)).isEmpty) = true
  rcases hl : (files.getD t []).drop (cutOffset rs t) with _ | ⟨a, l⟩
  · exact absurd hl (hne t htmem)
  · rfl

/-- C2 counterexample: a middle file fully covered by its predecessor's
tail contributes zero bytes, which poisons the output stream; the real
output is only the first file, while the unconditional concatenation of
post-cut contributions would also carry the third file's fresh byte. -/
theorem C2_failbit_counterexample :
    mergeFilesOut [[5] ++ Pex, Pex, Pex ++ [9]]
        [⟨true, 0, 20, 0⟩, ⟨true, 0, 20, 0⟩] = [5] ++ Pex ∧
    ((List.range ([[5] ++ Pex, Pex, Pex ++ [9]] : List (List Nat)).length).map
      (fun i => (([[5] ++ Pex, Pex, Pex ++ [9]] : List (List Nat)).getD i []).drop
        (cutOffset [⟨true, 0, 20, 0⟩, ⟨true, 0, 20, 0⟩] i))).flatten = [5] ++ Pex ++ [9] ∧
    ([5] ++ Pex : List Nat) ≠ [5] ++ Pex ++ [9] :=
  ⟨by decide, by decide, by decide⟩

/-- C2 witness: the full-concatenation form applied where every post-cut
contribution is non-empty. -/
theorem C2_merge_is_concatenation_witness :
    (∀ i, i < ([[1], [2]] : List (List Nat)).length →
      (([[1], [2]] : List (List Nat)).getD i []).drop
        (cutOffset [⟨false, 0, 0, 0⟩] i) ≠ []) ∧
    mergeFilesOut [[1], [2]] [⟨false, 0, 0, 0⟩] =
      ((List.range ([[1], [2]] : List (List Nat)).length).map
        (fun i => (([[1], [2]] : List (List Nat)).getD i []).drop
          (cutOffset [⟨false, 0, 0, 0⟩] i))).flatten := by
  have hne : ∀ i, i < ([[1], [2]] : List (List Nat)).length →
      (([[1], [2]] : List (List Nat)).getD i []).drop
        (cutOffset [⟨false, 0, 0, 0⟩] i) ≠ [] := by
    intro i hi
    have hi2 : i < 2 := by simpa using hi
    interval_cases i
    · decide
    · decide
  exact ⟨hne, (C2_merge_is_concatenation [[1], [2]] [⟨false, 0, 0, 0⟩]).2 hne⟩

/-- C3 (amended): for files `A = X ++ Y` (with `|Y| = k ≥ 20`) and
`B = Y ++ Z`, provided the fingerprint (the last 20 bytes of `A`) does
not occur in `B` before the true position `k - 20`, the pair is detected
as found = true with `overlapCount = k`, `bytesDiffering = 0`,
`quota = 1`, and merging `[A, B]` yields exactly `X ++ Y ++ Z`.  The
original claim, without the no-earlier-occurrence condition, fails: see
`C3_roundtrip_counterexample`. -/
theorem C3_roundtrip_overlap (X Y Z : List Nat) (best : Bool) (hk : 20 ≤ Y.length)
    (hearly : ∀ j, j < Y.length - 20 → matchAt (Y ++ Z) (extractPattern (X ++ Y)) j = false) :
    processPair (X ++ Y) (Y ++ Z) best = some (.ok ⟨true, Y.length - 20, 20, 0⟩) ∧
    (⟨true, Y.length - 20, 20, 0⟩ : MatchResult).overlapCount = Y.length ∧
    (⟨true, Y.length - 20, 20, 0⟩ : MatchResult).quota = 1 ∧
    mergeFilesOut [X ++ Y, Y ++ Z] [⟨true, Y.length - 20, 20, 0⟩] = X ++ Y ++ Z := by
  refine ⟨processPair_roundtrip X Y Z best hk hearly, ?_, ?_, merge_roundtrip X Y Z hk⟩
  · simp only [MatchResult.overlapCount]
    omega
  · rw [quota_formula, if_pos rfl]
    show (((Y.length - 20 + 20 : Nat) : ℚ) - ((0 : Nat) : ℚ)) / ((Y.length - 20 + 20 : Nat) : ℚ) = 1
    rw [show Y.length - 20 + 20 = Y.length by omega]
    rw [Nat.cast_zero, sub_zero]
    exact div_self (by exact_mod_cast (by omega : Y.length ≠ 0))

/-- C3 counterexample: with `X = [1]`, `Y` twenty-one zero bytes and
`Z = [2]`, the fingerprint (20 zeros) occurs in `B` coincidentally at
offset 0 < k - 20 = 1, so the detected overlap is 20 ≠ k = 21 and the
merged output is not `X ++ Y ++ Z`. -/
theorem C3_roundtrip_counterexample :
    20 ≤ (List.replicate 21 (0 : Nat)).length ∧
    processPair ([1] ++ List.replicate 21 0) (List.replicate 21 0 ++ [2]) false =
      some (.ok ⟨true, 0, 20, 0⟩) ∧
    (⟨true, 0, 20, 0⟩ : MatchResult).overlapCount ≠ (List.replicate 21 (0 : Nat)).length ∧
    mergeFilesOut [[1] ++ List.replicate 21 0, List.replicate 21 0 ++ [2]] [⟨true, 0, 20, 0⟩] ≠
      [1] ++ List.replicate 21 0 ++ [2] :=
  ⟨by decide, rfl, by decide, by decide⟩

/-- C3 witness: the amended theorem applied at concrete streams (with
`k = 20` there is no room for an earlier occurrence). -/
theorem C3_roundtrip_overlap_witness :
    20 ≤ Pex.length ∧
    (processPair ([5] ++ Pex) (Pex ++ [7]) false = some (.ok ⟨true, Pex.length - 20, 20, 0⟩) ∧
     (⟨true, Pex.length - 20, 20, 0⟩ : MatchResult).overlapCount = Pex.length ∧
     (⟨true, Pex.length - 20, 20, 0⟩ : MatchResult).quota = 1 ∧
     mergeFilesOut [[5] ++ Pex, Pex ++ [7]] [⟨true, Pex.length - 20, 20, 0⟩] =
       [5] ++ Pex ++ [7]) := by
  refine ⟨by decide, C3_roundtrip_overlap [5] Pex [7] false (by decide) ?_⟩
  intro j hj
  rw [show Pex.length - 20 = 0 from by decide] at hj
  exact absurd hj (Nat.not_lt_zero j)

/-- C4: the refinement loop returns the result of best quota among the
running best it started from and the candidates it examined (the initial
not-found default when there is none); with continuous search disabled at
most one candidate is examined; with continuous search enabled the loop
only continues past a candidate while the best quota so far is at most
0.7; and in the two-occurrence scenario (`Aex`/`Bex`: a coincidental
first occurrence scoring 20/30 ≤ 0.7 and a later zero-diff occurrence)
the refiner selects the zero-diff occurrence at offset 40. -/
theorem C4_refinement_best_match :
    (∀ (A B P : List Nat) (best : Bool) (fuel : Nat) (result last r : MatchResult),
        GoodResult result →
        refineGo A B P best fuel result last = some (.ok r) →
        (r = result ∨ r ∈ refineCands A B P best fuel result last) ∧
        result.quota ≤ r.quota ∧
        ∀ c ∈ refineCands A B P best fuel result last, c.quota ≤ r.quota) ∧
    (∀ (A B P : List Nat) (best : Bool) (fuel : Nat) (result last : MatchResult),
        last.patternFound = false →
        refineGo A B P best (fuel + 1) result last = some (.ok result)) ∧
    (∀ (A B P : List Nat) (fuel : Nat) (result last : MatchResult),
        (refineCands A B P false fuel result last).length ≤ 1) ∧
    (∀ (A B P : List Nat) (fuel : Nat) (result last : MatchResult) (n : Nat),
        GoodResult result →
        n + 1 < (refineCands A B P true fuel result last).length →
        runBest result.quota ((refineCands A B P true fuel result last).take (n + 1)) ≤ 7 / 10) ∧
    processPair Aex Bex true = some (.ok ⟨true, 40, 20, 0⟩) := by
  refine ⟨?_, ?_, ?_, ?_, rfl⟩
  · intro A B P best fuel result last r h1 h2
    exact refineGo_best fuel result last r h1 h2
  · intro A B P best fuel result last hf
    exact refineGo_notfound hf
  · intro A B P fuel result last
    exact refineCands_single fuel result last
  · intro A B P fuel result last n h1 h2
    exact refineCands_stop fuel result last n h1 h2

/-- C4 witness: the best-of-examined statement applied at a concrete
refinement run. -/
theorem C4_refinement_best_match_witness :
    GoodResult default ∧
    (((default : MatchResult) = default ∨
        (default : MatchResult) ∈ refineCands [1] [2] [1] false 1 default {}) ∧
     (default : MatchResult).quota ≤ (default : MatchResult).quota ∧
     ∀ c ∈ refineCands [1] [2] [1] false 1 default {},
       c.quota ≤ (default : MatchResult).quota) :=
  ⟨GoodResult_default,
   C4_refinement_best_match.1 [1] [2] [1] false 1 default {} default GoodResult_default rfl⟩

/-- C5 (code bug): a predecessor shorter than the fingerprint length does
not give "not found" — the failed `seekg(-20, end)` leaves the stream at
offset 0, the whole file becomes the pattern, and when it occurs in the
successor at an offset making `overlapCount` exceed the predecessor's
length, the comparison seek fails and `compareFiles` throws
(`std::system_error`), crashing the program instead of falling back to
concatenation. -/
theorem C5_short_predecessor_crashes :
    ([0, 1, 2, 3, 4, 5, 6, 7, 8, 9] : List Nat).length < 20 ∧
    processPair [0, 1, 2, 3, 4, 5, 6, 7, 8, 9] [99, 0, 1, 2, 3, 4, 5, 6, 7, 8, 9] false =
      some (.error MergeError.shortRead) :=
  ⟨by decide, rfl⟩

/-- C6: every `MatchResult` the scan/compare phase hands back satisfies
`bytesDiffering ≤ overlapCount`; its quota equals
`(overlapCount − bytesDiffering) / overlapCount` when found and 0 when
not found; the quota lies in `[0, 1]`; and a not-found result carries
`matchPosition = patternSize = bytesDiffering = 0`. -/
theorem C6_result_invariants (A B : List Nat) (best : Bool) (r : MatchResult)
    (h : processPair A B best = some (.ok r)) :
    r.bytesDiffering ≤ r.overlapCount ∧
    r.quota = (if r.patternFound = true
      then ((r.overlapCount : ℚ) - (r.bytesDiffering : ℚ)) / (r.overlapCount : ℚ) else 0) ∧
    0 ≤ r.quota ∧ r.quota ≤ 1 ∧
    (r.patternFound = false →
      r.matchPosition = 0 ∧ r.patternSize = 0 ∧ r.bytesDiffering = 0) := by
  have hg := processPair_good h
  refine ⟨?_, quota_formula r, quota_nonneg hg.1, quota_le_one hg.1, ?_⟩
  · by_cases hf : r.patternFound = true
    · exact hg.1 hf
    · rw [hg.2 (patternFound_false_of_ne hf)]
      exact Nat.zero_le _
  · intro hff
    rw [hg.2 hff]
    exact ⟨rfl, rfl, rfl⟩

/-- C6 witness: the invariants at a concrete pair whose pattern is not
found. -/
theorem C6_result_invariants_witness :
    processPair [1] [2] false = some (.ok default) ∧
    ((default : MatchResult).bytesDiffering ≤ (default : MatchResult).overlapCount ∧
     (default : MatchResult).quota = (if (default : MatchResult).patternFound = true
       then (((default : MatchResult).overlapCount : ℚ) -
             ((default : MatchResult).bytesDiffering : ℚ)) /
           ((default : MatchResult).overlapCount : ℚ) else 0) ∧
     0 ≤ (default : MatchResult).quota ∧ (default : MatchResult).quota ≤ 1 ∧
     ((default : MatchResult).patternFound = false →
       (default : MatchResult).matchPosition = 0 ∧ (default : MatchResult).patternSize = 0 ∧
       (default : MatchResult).bytesDiffering = 0)) :=
  ⟨rfl, C6_result_invariants [1] [2] false default rfl⟩

/-- C7: whenever a read yields fewer bytes than requested while not
reporting end-of-stream — at the initial read of the pattern search, at
any iteration of its loop, or at any iteration of the byte-wise
comparison — the operation aborts with a fatal error rather than
returning a "not found", a shorter pattern, or a partial count. -/
theorem C7_short_read_fatal :
    (∀ (bs : Nat) (P b : List Nat) (rest : List (List Nat × Bool)) (pos fuel : Nat),
        b.length < bs →
        searchInFileOracle bs P ((b, false) :: rest) pos fuel = some (.error ())) ∧
    (∀ (bs : Nat) (P : List Nat) (fuel : Nat) (b : List Nat)
        (rest : List (List Nat × Bool)) (prev : List Nat) (rbs position : Nat),
        b.length < bs →
        searchOracleGo bs P (fuel + 1) ((b, false) :: rest) true prev rbs position =
          some (.error ())) ∧
    (∀ (bs fuel : Nat) (rs1 rs2 : List (List Nat × Bool)) (acc : Nat),
        ((readO rs1).1.1.length < bs ∧ (readO rs1).1.2 = false) ∨
        ((readO rs2).1.1.length < bs ∧ (readO rs2).1.2 = false) →
        compareOracleGo bs (fuel + 1) rs1 rs2 acc = some (.error ())) := by
  refine ⟨?_, ?_, ?_⟩
  · intro bs P b rest pos fuel hb
    simp only [searchInFileOracle, readO]
    rw [if_pos (And.intro hb (by simp))]
  · intro bs P fuel b rest prev rbs position hb
    rw [searchOracleGo, if_pos (Or.inl rfl)]
    simp only [readO, if_true]
    rw [if_pos (And.intro hb (by simp))]
  · intro bs fuel rs1 rs2 acc h
    rw [compareOracleGo, if_pos h]

/-- C7 witness: a one-byte short read without eof at block size 4096 is
fatal in all three places. -/
theorem C7_short_read_fatal_witness :
    ([9] : List Nat).length < 4096 ∧
    searchInFileOracle 4096 [1] [([9], false)] 0 5 = some (.error ()) ∧
    searchOracleGo 4096 [1] 5 [([9], false)] true [] 0 0 = some (.error ()) ∧
    (((readO [([9], false)]).1.1.length < 4096 ∧ (readO [([9], false)]).1.2 = false) ∨
     ((readO []).1.1.length < 4096 ∧ (readO []).1.2 = false)) ∧
    compareOracleGo 4096 5 [([9], false)] [] 0 = some (.error ()) :=
  ⟨by decide,
   C7_short_read_fatal.1 4096 [1] [9] [] 0 5 (by decide),
   C7_short_read_fatal.2.1 4096 [1] 4 [9] [] [] 0 0 (by decide),
   Or.inl ⟨by decide, rfl⟩,
   C7_short_read_fatal.2.2 4096 4 [([9], false)] [] 0 (Or.inl ⟨by decide, rfl⟩)⟩

/-- C8 (amended): when the output sink cannot be opened during assembly
nothing is written, and when an input cannot be opened mid-assembly the
writing stops there (partial output); but in both cases `main` falls
through to `return 0` — the completion status is 0, not nonzero (open
failures during the scan phase do exit with status 1).  The original
claim of a nonzero completion status fails: see
`C8_exit_status_counterexample`. -/
theorem C8_assembly_open_failure :
    (∀ (files : List (Option (List Nat))) (rs : List MatchResult),
        mergeFilesRun false files rs = []) ∧
    (∀ (pre : List (List Nat)) (post : List (Option (List Nat)))
        (rs : List MatchResult) (i : Nat),
        mergeGoOpt (pre.map some ++ none :: post) rs i = mergeGoOpt (pre.map some) rs i) ∧
    (∀ (A : List Nat) (rest : List (Option (List Nat))) (best : Bool) (rs : List MatchResult),
        scanGo A rest best = some (.ok rs) →
        runMain (some A :: rest) best false true = some (0, [])) := by
  refine ⟨?_, mergeGoOpt_stop, ?_⟩
  · intro files rs
    rw [mergeFilesRun, if_neg (by simp)]
  · intro A rest best rs h
    exact runMain_outputFail h

/-- C8 counterexample: both inputs open, the output sink does not; the
run writes nothing and exits with status 0 — not a nonzero status. -/
theorem C8_exit_status_counterexample :
    runMain [some [1], some [2]] false false true = some (0, []) := rfl

/-- C8 witness: the amended statement applied to a concrete run. -/
theorem C8_assembly_open_failure_witness :
    scanGo [1] [some [2]] false = some (.ok [default]) ∧
    runMain (some [1] :: [some [2]]) false false true = some (0, []) :=
  ⟨rfl, C8_assembly_open_failure.2.2 [1] [some [2]] false [default] rfl⟩

/-- C9 (amended): the refinement loop terminates whenever the extracted
pattern is non-empty — for the first pair that means a non-empty
predecessor, and for every later pair a predecessor of at least 20
bytes (each retry restarts the search at `matchPosition + 1`, strictly
increasing and bounded by the successor's length).  It does NOT
terminate for every pattern extracted from a predecessor file: an empty
first file, or a later pair whose predecessor is shorter than 20 bytes
(its stream sits at end-of-stream, so the failed `seekg(-20, end)`
yields an empty pattern), makes the inner search loop forever: see
`C9_empty_pattern_counterexample`. -/
theorem C9_refinement_terminates :
    (∀ (A B : List Nat) (best : Bool), A ≠ [] → processPair A B best ≠ none) ∧
    (∀ (A B : List Nat) (best : Bool), 20 ≤ A.length → processPairLater A B best ≠ none) := by
  refine ⟨fun A B best hA => processPair_ne_none hA, fun A B best hk => ?_⟩
  have heq : extractPatternEOF A = extractPattern A := by
    rw [extractPatternEOF, extractPattern, if_pos hk, if_pos hk]
  have hsame : processPairLater A B best = processPair A B best := by
    simp only [processPairLater, processPair, heq]
  rw [hsame]
  apply processPair_ne_none
  intro h
  rw [h] at hk
  simp at hk

/-- C9 counterexample: an empty first file yields an empty pattern and
the first pair's processing never finishes; and a later pair whose
non-empty predecessor is shorter than 20 bytes (here 25-, 10- and 1-byte
files: the second pair hangs) also yields an empty pattern, at
end-of-stream, and never finishes.  In both cases the model's generous
fuel, well beyond the claimed stream-length bound, is exhausted. -/
theorem C9_empty_pattern_counterexample :
    (extractPattern [] = [] ∧ processPair [] [0] false = none) ∧
    (List.replicate 10 4 ≠ ([] : List Nat) ∧
     extractPatternEOF (List.replicate 10 4) = [] ∧
     scanGo (List.replicate 25 3) [some (List.replicate 10 4), some [5]] false = none) :=
  ⟨⟨rfl, rfl⟩, ⟨by decide, rfl, rfl⟩⟩

/-- C9 witness: termination at a concrete first pair and a concrete
later pair. -/
theorem C9_refinement_terminates_witness :
    (([1] : List Nat) ≠ [] ∧ processPair [1] [2] false ≠ none) ∧
    (20 ≤ Pex.length ∧ processPairLater Pex [2] false ≠ none) :=
  ⟨⟨by decide, C9_refinement_terminates.1 [1] [2] false (by decide)⟩,
   ⟨by decide, C9_refinement_terminates.2 Pex [2] false (by decide)⟩⟩

/-- C10: for every stream, every start offset and every non-empty
pattern, the `searchInFile` scan loop terminates (the fuelled model never
returns the out-of-fuel marker at the code's block size). -/
theorem C10_search_loop_terminates (S P : List Nat) (pos : Nat) (hP : P ≠ []) :
    searchInFile 4096 S P pos ≠ none :=
  searchInFile_ne_none 4096 S P pos (by norm_num) hP

/-- C10 witness: termination at a concrete stream and pattern. -/
theorem C10_search_loop_terminates_witness :
    ([1] : List Nat) ≠ [] ∧ searchInFile 4096 [0, 1] [1] 0 ≠ none :=
  ⟨by decide, C10_search_loop_terminates [0, 1] [1] 0 (by decide)⟩

end Binmerge
